import Mathlib

/-!
# Verification of the auto-planning engine of the sample-testing scheduler

This file gives a shallow embedding of the scheduler's auto-planning engine
(`autoPlanJob` and its helpers in `src/server/storage.ts`) and proves the
specification's claims about it.

Modelling conventions:
* Calendar dates are modelled as integer day numbers.  Day `0` is a Sunday, so
  `d % 7` coincides with JavaScript's `Date.getDay()` (0 = Sunday … 6 =
  Saturday).  The `YYYY-MM-DD` strings produced by `getWeekStart` are in
  bijection with civil dates, so schedule weeks are keyed here by the day
  number of the week's Monday.
* JavaScript numbers that hold ids, quantities and day counts are modelled as
  `Int`.
* Database reads/writes are explicit: the schedules table is a `List SchedRow`
  threaded through the computation, and every error is surfaced as an
  `Except` value that also carries the table as persisted at the moment the
  exception was thrown (the source performs no transactional rollback).
* Array accesses that would dereference `undefined` in JavaScript (e.g.
  `jobStagesData[-1].processingTimeDays`) are modelled as a `.crash` error.
* The `for`-loop over the growing batch list is modelled with an explicit
  fuel parameter; exhausted fuel is the distinguished `.fuelExhausted` error.
-/

deriving instance DecidableEq for Except

namespace Scheduler

/-! ## Business-day calendar (storage.ts `addBusinessDays`, lines 668–687) -/

/-- `true` when day number `d` is a Monday–Friday.  Mirrors the source's
`dayOfWeek !== 0 && dayOfWeek !== 6` with day 0 = Sunday. -/
def isWeekday (d : Int) : Bool :=
  d % 7 != 0 && d % 7 != 6

/-- Number of pending non-counting (weekend) days immediately ahead of `d`;
only used to bound the number of steps of the business-day loop. -/
def weekendPad (d : Int) : Nat :=
  if d % 7 = 5 then 2 else if d % 7 = 6 then 1 else 0

/-- The `while (daysAdded < businessDays)` loop of `addBusinessDays`:
step one calendar day at a time and count only weekdays.  The loop makes at
most `3 * (businessDays - daysAdded) + weekendPad result` steps (at most two
consecutive days are weekend days), so with at least that much fuel this is
exactly the source's unbounded loop; `addBusinessDaysLoop_spec` proves the
characterisation under that bound. -/
def addBusinessDaysLoop (fuel : Nat) (result daysAdded businessDays : Int) : Int :=
  match fuel with
  | 0 => result
  | fuel + 1 =>
    if daysAdded < businessDays then
      if isWeekday (result + 1) then
        addBusinessDaysLoop fuel (result + 1) (daysAdded + 1) businessDays
      else
        addBusinessDaysLoop fuel (result + 1) daysAdded businessDays
    else result

/-- storage.ts `addBusinessDays`: returns `startDate` unchanged when
`businessDays == 0`, otherwise walks forward day by day counting weekdays. -/
def addBusinessDays (startDate : Int) (businessDays : Int) : Int :=
  if businessDays = 0 then startDate
  else addBusinessDaysLoop (3 * businessDays.toNat + 3) startDate 0 businessDays

/-- Number of weekdays among the `len` days `d+1, …, d+len`. -/
def countWeekdays (d : Int) : Nat → Nat
  | 0 => 0
  | len + 1 => (if isWeekday (d + 1) then 1 else 0) + countWeekdays (d + 1) len

/-! ## Week bucketer (storage.ts `getWeekStart`, lines 653–666) -/

/-- storage.ts `getWeekStart`: the Monday of the week containing `d`
(`diff = date - day + (day === 0 ? -6 : 1)`), as a day number standing for
the formatted `YYYY-MM-DD` string. -/
def getWeekStart (d : Int) : Int :=
  let day := d % 7
  d - day + (if day = 0 then -6 else 1)

/-! ## Data model (shared/schema.ts, restricted to the fields the planner reads) -/

/-- A row of the `jobs` table. -/
structure Job where
  id : Int
  totalSamples : Int
  materialArrivesDate : Int
  activityType : String
deriving Repr, DecidableEq

/-- A row of the `activityTypes` table. -/
structure ActivityType where
  id : Int
  name : String
deriving Repr, DecidableEq

/-- A row of the `stages` table. -/
structure Stage where
  id : Int
  order : Int
  proceedWithTestQty : Option Int
  releaseRemainingAtStageId : Option Int
deriving Repr, DecidableEq

/-- A row of the `activityTypeStages` table. -/
structure ActivityTypeStage where
  activityTypeId : Int
  stageId : Int
  processingTimeDays : Int
deriving Repr, DecidableEq

/-- A row of the `schedules` table (the `id` serial column is irrelevant to
the planner and omitted). -/
structure SchedRow where
  jobId : Int
  stageId : Int
  weekStart : Int
  scheduledSamples : Int
deriving Repr, DecidableEq

/-- One entry of `jobStagesData`: the join of `activityTypeStages` with
`stages`, as selected in `autoPlanJob`. -/
structure StageData where
  stageId : Int
  processingTimeDays : Int
  order : Int
  proceedWithTestQty : Option Int
  releaseRemainingAtStageId : Option Int
deriving Repr, DecidableEq

/-- The in-memory planning `Batch` of `autoPlanJob` (storage.ts lines 778–796). -/
structure Batch where
  qty : Int
  lastScheduledStage : Option Int
  held : Bool
  schedulingCompleted : Bool
  lastScheduledDate : Option Int
  releaseQtyHeldAtStage : Option Int
deriving Repr, DecidableEq

/-- The mutable state of one auto-plan invocation: the batch list plus the
schedules table as persisted so far. -/
structure PlanState where
  batches : List Batch
  rows : List SchedRow
deriving Repr, DecidableEq

/-- The database snapshot an `autoPlanJob` call runs against. -/
structure Database where
  jobs : List Job
  activityTypes : List ActivityType
  activityTypeStages : List ActivityTypeStage
  stages : List Stage
  schedules : List SchedRow
deriving Repr, DecidableEq

/-- The errors `autoPlanJob` can throw.  `crash` stands for a JavaScript
`TypeError` from reading a property of `undefined` (an out-of-range array
access); `fuelExhausted` is an artefact of modelling the unbounded
batch-list `for` loop with fuel and corresponds to no source behaviour. -/
inductive PlanError where
  | jobNotFound
  | activityTypeNotFound
  | noStages
  | deadlockNoProgress
  | maxIterationsExceeded
  | crash
  | fuelExhausted
deriving Repr, DecidableEq

/-- JavaScript `Array.prototype.findIndex`: index of the first match, `-1`
when none. -/
def jsFindIdx {α : Type} (l : List α) (p : α → Bool) : Int :=
  match l with
  | [] => -1
  | a :: t =>
    if p a then 0
    else if jsFindIdx t p < 0 then -1 else jsFindIdx t p + 1

/-- JavaScript array subscript: `none` stands for `undefined`. -/
def jsGet {α : Type} (l : List α) (i : Int) : Option α :=
  if i < 0 then none else l.get? i.toNat

/-! ## Schedule writer (storage.ts `scheduleQuantityForWeek`, lines 689–731) -/

/-- Does a schedules row for this (job, stage, week) key exist? -/
def rowMatches (jobId stageId weekStart : Int) (r : SchedRow) : Bool :=
  r.jobId == jobId && r.stageId == stageId && r.weekStart == weekStart

/-- storage.ts `scheduleQuantityForWeek`: add `quantity` to the existing row
for (job, stage, week) or insert a fresh row. -/
def scheduleQuantityForWeek (rows : List SchedRow) (jobId stageId weekStart quantity : Int) :
    List SchedRow :=
  if rows.any (rowMatches jobId stageId weekStart) then
    rows.map (fun r =>
      if rowMatches jobId stageId weekStart r then
        { r with scheduledSamples := r.scheduledSamples + quantity }
      else r)
  else
    rows ++ [{ jobId := jobId, stageId := stageId, weekStart := weekStart,
               scheduledSamples := quantity }]

/-- Total scheduled quantity across all weeks for one (job, stage). -/
def sumForStage (rows : List SchedRow) (jobId stageId : Int) : Int :=
  ((rows.filter (fun r => r.jobId == jobId && r.stageId == stageId)).map
    (fun r => r.scheduledSamples)).sum

/-- Total scheduled quantity for one (job, stage, week). -/
def sumForStageWeek (rows : List SchedRow) (jobId stageId weekStart : Int) : Int :=
  ((rows.filter (rowMatches jobId stageId weekStart)).map
    (fun r => r.scheduledSamples)).sum

/-! ## Batch scheduler core (storage.ts `autoPlanJob` main loop, lines 777–1066) -/

/-- `releaseToStageIndex` of the release scan (storage.ts lines 1005–1008):
the pipeline index just after the held batch's own last-scheduled stage.
`findIndex` yields `-1` both for a null `lastScheduledStage` and for a stage
id absent from the pipeline. -/
def releaseTargetIdx (stages : List StageData) (b : Batch) : Int :=
  (match b.lastScheduledStage with
   | none => -1
   | some s => jsFindIdx stages (fun sd => sd.stageId == s)) + 1

/-- Does the release scan release batch `b` when `trigger` was just
scheduled (storage.ts lines 996–999)? -/
def releasedBy (b : Batch) (trigger : Int) : Bool :=
  b.held && b.releaseQtyHeldAtStage == some trigger

/-- The `for (let j = 0; …)` release scan (storage.ts lines 992–1035): every
held batch whose release trigger equals the stage just scheduled is released
into the pipeline entry after its own last-scheduled stage, its full held
quantity scheduled for the same `weekStart`.
The batch list's length is fixed during the scan, so calling with
`fuel = st.batches.length` makes this exactly the source's `for` loop. -/
def releaseScan (stages : List StageData) (jobId trigger : Int) (relDate : Option Int)
    (weekStart : Int) (fuel : Nat) (j : Nat) (st : PlanState) :
    Except (PlanError × PlanState) PlanState :=
  match fuel with
  | 0 => if j < st.batches.length then .error (.fuelExhausted, st) else .ok st
  | fuel + 1 =>
  match st.batches.get? j with
  | none => .ok st
  | some heldBatch =>
    if releasedBy heldBatch trigger then
      let releaseToStageIndex := releaseTargetIdx stages heldBatch
      match jsGet stages releaseToStageIndex with
      | none => .error (.crash, st)
      | some releaseToStage =>
        let heldBatch' : Batch :=
          { heldBatch with
            held := false
            releaseQtyHeldAtStage := none
            lastScheduledDate := relDate
            lastScheduledStage := some releaseToStage.stageId
            schedulingCompleted :=
              if releaseToStageIndex = (stages.length : Int) - 1 then true
              else heldBatch.schedulingCompleted }
        let rows' := scheduleQuantityForWeek st.rows jobId releaseToStage.stageId weekStart
          heldBatch.qty
        releaseScan stages jobId trigger relDate weekStart fuel (j + 1)
          { batches := st.batches.set j heldBatch', rows := rows' }
    else
      releaseScan stages jobId trigger relDate weekStart fuel (j + 1) st

/-- Advancing one active batch into its next stage (storage.ts lines
876–990): compute the wait from the previous stage, the target date and
week, split the quantity at a `proceedWithTestQty` cap, write the schedule
row, update the batch in place and spawn a held batch for any remainder.
Returns the updated state together with the data the subsequent release scan
needs (`none` when the batch was skipped as held/completed). -/
def advanceBatch (stages : List StageData) (jobId arrive : Int) (st : PlanState) (i : Nat) :
    Except (PlanError × PlanState) (PlanState × Option (Int × Int × Int)) :=
  match st.batches.get? i with
  | none => .error (.crash, st)
  | some batch =>
    if batch.held || batch.schedulingCompleted then .ok (st, none)
    else
      let previousStageIndex : Int :=
        match batch.lastScheduledStage with
        | none => 0
        | some s => jsFindIdx stages (fun sd => sd.stageId == s)
      let ptE : Except (PlanError × PlanState) Int :=
        match batch.lastScheduledStage with
        | none => .ok 0
        | some _ =>
          match jsGet stages previousStageIndex with
          | none => .error (.crash, st)
          | some sd => .ok sd.processingTimeDays
      match ptE with
      | .error e => .error e
      | .ok processingTimeForPreviousStage =>
        let calculateNextSchedulingDateFrom :=
          match batch.lastScheduledDate with
          | none => arrive
          | some d => d
        let previousStageId := batch.lastScheduledStage
        let nextStageIndex : Int :=
          match batch.lastScheduledStage with
          | none => 0
          | some s => jsFindIdx stages (fun sd => sd.stageId == s) + 1
        match jsGet stages nextStageIndex with
        | none => .error (.crash, st)
        | some nextStage =>
          let forDate := addBusinessDays calculateNextSchedulingDateFrom
            processingTimeForPreviousStage
          let schedulingQty :=
            match nextStage.proceedWithTestQty with
            | none => batch.qty
            | some p => min p batch.qty
          let heldQty :=
            match nextStage.proceedWithTestQty with
            | none => 0
            | some p => max (batch.qty - p) 0
          let weekStart := getWeekStart forDate
          let rows1 := scheduleQuantityForWeek st.rows jobId nextStage.stageId weekStart
            schedulingQty
          let batch1 : Batch :=
            { batch with
              qty := schedulingQty
              lastScheduledStage := some nextStage.stageId
              lastScheduledDate := some forDate
              schedulingCompleted :=
                if nextStageIndex = (stages.length : Int) - 1 then true
                else batch.schedulingCompleted }
          let batches1 := st.batches.set i batch1
          let batches2 :=
            if heldQty != 0 then
              batches1 ++ [{ qty := heldQty
                             lastScheduledStage := previousStageId
                             held := true
                             schedulingCompleted := false
                             lastScheduledDate := none
                             releaseQtyHeldAtStage := nextStage.releaseRemainingAtStageId }]
            else batches1
          .ok (⟨batches2, rows1⟩, some (nextStage.stageId, forDate, weekStart))

/-- One index of the batch `for` loop: advance the batch, then run the
release scan for the stage it was scheduled into. -/
def processStep (stages : List StageData) (jobId arrive : Int) (st : PlanState) (i : Nat) :
    Except (PlanError × PlanState) PlanState :=
  match advanceBatch stages jobId arrive st i with
  | .error e => .error e
  | .ok (st1, none) => .ok st1
  | .ok (st1, some (trigger, forDate, weekStart)) =>
    releaseScan stages jobId trigger (some forDate) weekStart st1.batches.length 0 st1

/-- The `for (let i = 0; i < batches.length; i++)` loop of one outer
iteration.  The list may grow while the loop runs, so the model carries
explicit fuel; `.fuelExhausted` corresponds to no source behaviour. -/
def passLoop (stages : List StageData) (jobId arrive : Int) (fuel : Nat) (i : Nat)
    (st : PlanState) : Except (PlanError × PlanState) PlanState :=
  match fuel with
  | 0 => if i < st.batches.length then .error (.fuelExhausted, st) else .ok st
  | fuel + 1 =>
    if i < st.batches.length then
      match processStep stages jobId arrive st i with
      | .error e => .error e
      | .ok st' => passLoop stages jobId arrive fuel (i + 1) st'
    else .ok st

/-- The stable sort moving held batches after active ones (storage.ts lines
856–860; JavaScript's sort is stable, so it is exactly this partition). -/
def sortBatches (bs : List Batch) : List Batch :=
  bs.filter (fun b => !b.held) ++ bs.filter (fun b => b.held)

/-- The `while` loop of `autoPlanJob` (storage.ts lines 798–1059) together
with the post-loop max-iterations check (lines 1063–1065).  `progressMade`
is declared `false` each iteration and never set, so the deadlock check
fires at the end of every iteration past the tenth. -/
def autoPlanLoop (stages : List StageData) (jobId arrive : Int) (fuel : Nat)
    (iterations : Nat) (st : PlanState) : Except (PlanError × PlanState) PlanState :=
  match fuel with
  | 0 =>
    -- Unreachable from `autoPlanJob`: starting with `fuel = 101` keeps
    -- `fuel = 101 - iterations`, and the loop guard needs `iterations < 100`.
    .error (.fuelExhausted, st)
  | fuel + 1 =>
    if st.batches.any (fun b => !b.schedulingCompleted) ∧ iterations < 100 then
      let iterations' := iterations + 1
      match passLoop stages jobId arrive ((stages.length + 2) ^ (stages.length + 2)) 0
          { st with batches := sortBatches st.batches } with
      | .error e => .error e
      | .ok st' =>
        let progressMade := false
        if (!progressMade) ∧ 10 < iterations' then .error (.deadlockNoProgress, st')
        else autoPlanLoop stages jobId arrive fuel iterations' st'
    else if 100 ≤ iterations then .error (.maxIterationsExceeded, st)
    else .ok st

/-- storage.ts `getJob` (a `select … where id =` returning the first row). -/
def getJob (db : Database) (jobId : Int) : Option Job :=
  db.jobs.find? (fun j => j.id == jobId)

/-- Insert `sd` into a list sorted by `order` (ascending). -/
def insertByOrder (sd : StageData) : List StageData → List StageData
  | [] => [sd]
  | t :: ts => if sd.order ≤ t.order then sd :: t :: ts else t :: insertByOrder sd ts

/-- Sort stage data by `order` ascending (the query's `orderBy(stages.order)`). -/
def sortByOrder (l : List StageData) : List StageData :=
  l.foldr insertByOrder []

/-- The `jobStagesData` query: `activityTypeStages` filtered to the activity
type, inner-joined with `stages`, ordered by `stages.order`. -/
def jobStagesFor (db : Database) (activityTypeId : Int) : List StageData :=
  sortByOrder
    ((db.activityTypeStages.filter (fun a => a.activityTypeId == activityTypeId)).filterMap
      (fun a =>
        (db.stages.find? (fun s => s.id == a.stageId)).map
          (fun s =>
            { stageId := s.id
              processingTimeDays := a.processingTimeDays
              order := s.order
              proceedWithTestQty := s.proceedWithTestQty
              releaseRemainingAtStageId := s.releaseRemainingAtStageId })))

/-- storage.ts `autoPlanJob` (lines 733–1066): resolve the job, its activity
type and stage list, clear the job's schedule rows, then run the batch
scheduler.  The returned pair is (outcome, schedules table after the call);
on error the table is whatever had been persisted when the throw happened. -/
def autoPlanJob (db : Database) (jobId : Int) : Except PlanError Unit × List SchedRow :=
  match getJob db jobId with
  | none => (.error .jobNotFound, db.schedules)
  | some job =>
    match db.activityTypes.find? (fun a => a.name == job.activityType) with
    | none => (.error .activityTypeNotFound, db.schedules)
    | some activityType =>
      let jobStagesData := jobStagesFor db activityType.id
      if jobStagesData.length = 0 then (.error .noStages, db.schedules)
      else
        let rows0 := db.schedules.filter (fun r => !(r.jobId == jobId))
        let st0 : PlanState :=
          { batches := [{ qty := job.totalSamples
                          lastScheduledStage := none
                          held := false
                          schedulingCompleted := false
                          lastScheduledDate := none
                          releaseQtyHeldAtStage := none }]
            rows := rows0 }
        match autoPlanLoop jobStagesData jobId job.materialArrivesDate 101 0 st0 with
        | .ok stF => (.ok (), stF.rows)
        | .error (e, stE) => (.error e, stE.rows)

/-! ## Derived notions used to state the claims -/

/-- Pipeline position of a batch's last-scheduled stage: `-1` when never
scheduled (or, as in JavaScript's `findIndex`, when the id is absent). -/
def posOf (stages : List StageData) (b : Batch) : Int :=
  match b.lastScheduledStage with
  | none => -1
  | some s => jsFindIdx stages (fun sd => sd.stageId == s)

/-- At most one schedules row exists for the job per (stage, week) key.
This holds for every state `autoPlanJob` reaches, because it first deletes
all of the job's rows and `scheduleQuantityForWeek` never duplicates a key;
it makes the SQL `update … where key` touch exactly one row. -/
def AtMostOnePerKey (rows : List SchedRow) (jobId : Int) : Prop :=
  ∀ s w, (rows.filter (rowMatches jobId s w)).length ≤ 1

/-- Quantity batch `b` still owes to stage index `k` of the pipeline: its
whole quantity when the batch is active in front of `k`, nothing once the
batch passed `k` or finished. -/
def pendingAt (stages : List StageData) (k : Nat) (b : Batch) : Int :=
  if b.schedulingCompleted then 0
  else if posOf stages b < (k : Int) then b.qty else 0

/-- Total quantity the batch list still owes to stage index `k`. -/
def pendingSum (stages : List StageData) (k : Nat) (bs : List Batch) : Int :=
  (bs.map (pendingAt stages k)).sum

/-- A held batch is never scheduling-completed (holds in every reachable
state: spawning sets `held := true, schedulingCompleted := false`, release
clears `held` before possibly completing). -/
def HeldNotCompleted (bs : List Batch) : Prop :=
  ∀ b ∈ bs, b.held = true → b.schedulingCompleted = false

/-- The conservation invariant of the main loop: for every pipeline index
`k`, what the schedule already records for that stage plus what the batches
still owe it equals `q`. -/
def ConsInv (stages : List StageData) (jobId q : Int) (st : PlanState) : Prop :=
  ∀ k sd, stages.get? k = some sd →
    sumForStage st.rows jobId sd.stageId + pendingSum stages k st.batches = q

/-- The invariants the main loop maintains: conservation, key uniqueness of
the job's schedule rows, and held batches never being completed. -/
def InvPack (stages : List StageData) (jobId q : Int) (st : PlanState) : Prop :=
  ConsInv stages jobId q st ∧ AtMostOnePerKey st.rows jobId ∧ HeldNotCompleted st.batches

/-- The schedules-table component of a planner result (errors also carry
the table as persisted at the throw). -/
def rowsOf : Except (PlanError × PlanState) PlanState → List SchedRow
  | .ok st => st.rows
  | .error (_, st) => st.rows

/-- Was batch `b` released into stage `S` by the trigger?  Used to state
the release rule: the target stage is computed from the batch's own
`lastScheduledStage`, not from the releasing batch. -/
def releasedInto (stages : List StageData) (trigger S : Int) (b : Batch) : Bool :=
  releasedBy b trigger &&
    ((jsGet stages (releaseTargetIdx stages b)).map (fun sd => sd.stageId) == some S)

/-! ## Concrete fixtures for the worked example and the failing runs -/

/-- The spec's worked example: 15 samples, five stages of 5 business days,
Stage 2 capped at 2 with release at Stage 4, material arriving on a Monday
(day 1 is a Monday under the day-numbering convention). -/
def exampleDb : Database :=
  { jobs := [{ id := 1, totalSamples := 15, materialArrivesDate := 1, activityType := "A" }]
    activityTypes := [{ id := 10, name := "A" }]
    activityTypeStages :=
      [ { activityTypeId := 10, stageId := 1, processingTimeDays := 5 }
      , { activityTypeId := 10, stageId := 2, processingTimeDays := 5 }
      , { activityTypeId := 10, stageId := 3, processingTimeDays := 5 }
      , { activityTypeId := 10, stageId := 4, processingTimeDays := 5 }
      , { activityTypeId := 10, stageId := 5, processingTimeDays := 5 } ]
    stages :=
      [ { id := 1, order := 1, proceedWithTestQty := none, releaseRemainingAtStageId := none }
      , { id := 2, order := 2, proceedWithTestQty := some 2, releaseRemainingAtStageId := some 4 }
      , { id := 3, order := 3, proceedWithTestQty := none, releaseRemainingAtStageId := none }
      , { id := 4, order := 4, proceedWithTestQty := none, releaseRemainingAtStageId := none }
      , { id := 5, order := 5, proceedWithTestQty := none, releaseRemainingAtStageId := none } ]
    schedules := [] }

/-- A perfectly valid configuration that needs more than ten outer
iterations: eleven stages, no caps, no release stages, one sample,
zero processing times. -/
def elevenStageDb : Database :=
  { jobs := [{ id := 1, totalSamples := 1, materialArrivesDate := 1, activityType := "A" }]
    activityTypes := [{ id := 10, name := "A" }]
    activityTypeStages :=
      (List.range 11).map (fun k =>
        { activityTypeId := 10, stageId := (k : Int) + 1, processingTimeDays := 0 })
    stages :=
      (List.range 11).map (fun k =>
        { id := (k : Int) + 1, order := (k : Int) + 1, proceedWithTestQty := none,
          releaseRemainingAtStageId := none })
    schedules := [{ jobId := 1, stageId := 1, weekStart := 1, scheduledSamples := 99 }] }

/-- A job whose activity type does not exist, with a pre-existing schedule
row for the job. -/
def missingActivityTypeDb : Database :=
  { jobs := [{ id := 1, totalSamples := 5, materialArrivesDate := 1, activityType := "B" }]
    activityTypes := [{ id := 10, name := "A" }]
    activityTypeStages := [{ activityTypeId := 10, stageId := 1, processingTimeDays := 0 }]
    stages :=
      [{ id := 1, order := 1, proceedWithTestQty := none, releaseRemainingAtStageId := none }]
    schedules := [{ jobId := 1, stageId := 1, weekStart := 1, scheduledSamples := 7 }] }

/-- A database with no jobs at all. -/
def noJobDb : Database :=
  { jobs := []
    activityTypes := [{ id := 10, name := "A" }]
    activityTypeStages := [{ activityTypeId := 10, stageId := 1, processingTimeDays := 0 }]
    stages :=
      [{ id := 1, order := 1, proceedWithTestQty := none, releaseRemainingAtStageId := none }]
    schedules := [{ jobId := 3, stageId := 1, weekStart := 1, scheduledSamples := 4 }] }

/-- Fixtures for the split-rule witness: a two-stage pipeline whose
second stage caps advancement at 2 and releases at stage id 3, and an
active batch of 5 sitting after stage 1. -/
def c4Stage1 : StageData :=
  { stageId := 1, processingTimeDays := 0, order := 1,
    proceedWithTestQty := none, releaseRemainingAtStageId := none }

def c4Stage2 : StageData :=
  { stageId := 2, processingTimeDays := 0, order := 2,
    proceedWithTestQty := some 2, releaseRemainingAtStageId := some 3 }

def c4Stages : List StageData := [c4Stage1, c4Stage2]

def c4Batch : Batch :=
  { qty := 5, lastScheduledStage := some 1, held := false, schedulingCompleted := false,
    lastScheduledDate := some 1, releaseQtyHeldAtStage := none }

/-- Fixtures for the release-rule witness: a three-stage pipeline and a
held batch of 7 parked after stage 1 waiting for trigger stage 9. -/
def c3Stages : List StageData :=
  [ { stageId := 1, processingTimeDays := 0, order := 1,
      proceedWithTestQty := none, releaseRemainingAtStageId := none }
  , { stageId := 2, processingTimeDays := 0, order := 2,
      proceedWithTestQty := none, releaseRemainingAtStageId := none }
  , { stageId := 3, processingTimeDays := 0, order := 3,
      proceedWithTestQty := none, releaseRemainingAtStageId := none } ]

def c3Held : Batch :=
  { qty := 7, lastScheduledStage := some 1, held := true, schedulingCompleted := false,
    lastScheduledDate := none, releaseQtyHeldAtStage := some 9 }

def c3State : PlanState := { batches := [c3Held], rows := [] }

/-! # Theorems -/

set_option maxRecDepth 40000 in
/-- C1: the worked example.  A job of 15 samples arriving on Monday of week
W1 (day 1), five stages of 5 business days each, Stage 2 capped at
`proceedWithTestQty = 2` releasing at Stage 4, produces exactly the rows
W1 Stage1=15; W2 Stage2=2; W3 Stage3=2; W4 Stage4=2 and Stage2=13;
W5 Stage5=2 and Stage3=13; W6 Stage4=13; W7 Stage5=13 (week `w` has Monday
day `1 + 7*(w-1)`), and every stage's total across weeks is 15. -/
theorem claim1_worked_example :
    autoPlanJob exampleDb 1 =
      (.ok (), [ ⟨1, 1, 1, 15⟩, ⟨1, 2, 8, 2⟩, ⟨1, 3, 15, 2⟩, ⟨1, 4, 22, 2⟩, ⟨1, 2, 22, 13⟩,
                 ⟨1, 3, 29, 13⟩, ⟨1, 5, 29, 2⟩, ⟨1, 4, 36, 13⟩, ⟨1, 5, 43, 13⟩ ]) ∧
    (∀ s ∈ [1, 2, 3, 4, 5], sumForStage (autoPlanJob exampleDb 1).2 1 s = 15) := by
  decide

set_option maxRecDepth 40000 in
/-- C5: the deadlock error is NOT restricted to cyclic or malformed release
configurations.  On a perfectly valid pipeline of eleven stages with no
holds and no release stages at all, `autoPlanJob` finishes scheduling every
stage and still throws the "Auto-planning deadlock: no progress possible"
error, because the `progressMade` flag is never set anywhere and the check
fires at the end of every iteration past the tenth — the iteration bound of
100 is never the trigger. -/
theorem claim5_deadlock_on_valid_pipeline :
    autoPlanJob elevenStageDb 1 =
      (.error .deadlockNoProgress,
        [ ⟨1, 1, 1, 1⟩, ⟨1, 2, 1, 1⟩, ⟨1, 3, 1, 1⟩, ⟨1, 4, 1, 1⟩, ⟨1, 5, 1, 1⟩, ⟨1, 6, 1, 1⟩,
          ⟨1, 7, 1, 1⟩, ⟨1, 8, 1, 1⟩, ⟨1, 9, 1, 1⟩, ⟨1, 10, 1, 1⟩, ⟨1, 11, 1, 1⟩ ]) := by
  decide

set_option maxRecDepth 40000 in
/-- C7 counterexample: a deadlock error does NOT leave the persisted rows
unchanged.  On `elevenStageDb` the call throws the deadlock error, yet the
schedules table afterwards differs from the table before the call (the
job's pre-existing row was deleted and new rows were written). -/
theorem claim7_counterexample :
    (autoPlanJob elevenStageDb 1).1 = .error .deadlockNoProgress ∧
    (autoPlanJob elevenStageDb 1).2 ≠ elevenStageDb.schedules := by
  decide

/-- C10: calling `autoPlanJob` with a job id that matches no job throws the
"Job with ID … not found" error before the stage graph is read and before
any delete or write, leaving the schedules table unchanged. -/
theorem claim10_job_not_found (db : Database) (jobId : Int)
    (h : getJob db jobId = none) :
    autoPlanJob db jobId = (.error .jobNotFound, db.schedules) := by
  simp [autoPlanJob, h]

/-- C10 witness: a concrete database with no jobs. -/
theorem claim10_witness :
    autoPlanJob noJobDb 1 = (.error .jobNotFound, noJobDb.schedules) :=
  claim10_job_not_found noJobDb 1 (by decide)

/-- C9: `getWeekStart d` is the Monday of the Monday-through-Sunday week
containing `d`: it is ≡ 1 mod 7 (day 0 is a Sunday, so residue 1 is a
Monday), satisfies `m ≤ d < m + 7`, and a Sunday maps to the Monday six
days earlier. -/
theorem claim9_week_start (d : Int) :
    getWeekStart d % 7 = 1 ∧ getWeekStart d ≤ d ∧ d < getWeekStart d + 7 ∧
    (d % 7 = 0 → getWeekStart d = d - 6) := by
  by_cases h : d % 7 = 0
  · simp only [getWeekStart, if_pos h]
    omega
  · simp only [getWeekStart, if_neg h]
    omega

/-- C9 witness: day 7 is a Sunday and maps to day 1, the Monday six days
earlier. -/
theorem claim9_witness : (7 : Int) % 7 = 0 ∧ getWeekStart 7 = 7 - 6 :=
  ⟨by decide, (claim9_week_start 7).2.2.2 (by decide)⟩

/-! ## The business-day calendar (C8) -/

lemma weekendPad_le (d : Int) : weekendPad d ≤ 2 := by
  simp only [weekendPad]; split_ifs <;> omega

/-- Once the counter has reached the target the loop stops immediately. -/
lemma addBusinessDaysLoop_done (fuel : Nat) (r da bd : Int) (h : ¬ da < bd) :
    addBusinessDaysLoop fuel r da bd = r := by
  cases fuel <;> simp [addBusinessDaysLoop, h]

/-- Characterisation of the business-day loop: with enough fuel (which the
steps of the loop never exceed), starting below the target it lands on a
weekday strictly ahead of `r`, and the walk counted exactly the weekdays
strictly between `r` (exclusive) and the result (inclusive). -/
lemma addBusinessDaysLoop_spec (fuel : Nat) :
    ∀ (r da bd : Int), da < bd → 3 * (bd - da).toNat + weekendPad r ≤ fuel →
    r < addBusinessDaysLoop fuel r da bd ∧
    isWeekday (addBusinessDaysLoop fuel r da bd) = true ∧
    countWeekdays r (addBusinessDaysLoop fuel r da bd - r).toNat = (bd - da).toNat := by
  induction fuel with
  | zero =>
    intro r da bd h hf
    exfalso
    omega
  | succ f ih =>
    intro r da bd h hf
    cases hw : isWeekday (r + 1) with
    | true =>
      have hstep : addBusinessDaysLoop (f + 1) r da bd
          = addBusinessDaysLoop f (r + 1) (da + 1) bd := by
        rw [addBusinessDaysLoop, if_pos h, hw]
        simp
      rw [hstep]
      by_cases hda : da + 1 < bd
      · have hb : 3 * (bd - (da + 1)).toNat + weekendPad (r + 1) ≤ f := by
          have := weekendPad_le (r + 1)
          omega
        obtain ⟨h1, h2, h3⟩ := ih (r + 1) (da + 1) bd hda hb
        refine ⟨by omega, h2, ?_⟩
        have he : (addBusinessDaysLoop f (r + 1) (da + 1) bd - r).toNat
            = (addBusinessDaysLoop f (r + 1) (da + 1) bd - (r + 1)).toNat + 1 := by omega
        rw [he, countWeekdays, hw, h3]
        simp only [if_pos trivial]
        omega
      · rw [addBusinessDaysLoop_done f (r + 1) (da + 1) bd hda]
        refine ⟨by omega, hw, ?_⟩
        have he : (r + 1 - r).toNat = 1 := by omega
        rw [he, countWeekdays, hw, countWeekdays]
        simp only [if_pos trivial]
        omega
    | false =>
      have hstep : addBusinessDaysLoop (f + 1) r da bd
          = addBusinessDaysLoop f (r + 1) da bd := by
        rw [addBusinessDaysLoop, if_pos h, hw]
        simp
      rw [hstep]
      have hb : 3 * (bd - da).toNat + weekendPad (r + 1) ≤ f := by
        have hww : (r + 1) % 7 = 0 ∨ (r + 1) % 7 = 6 := by
          simp only [isWeekday, Bool.and_eq_false_iff, bne_eq_false_iff_eq] at hw
          tauto
        simp only [weekendPad] at hf ⊢
        split_ifs at hf ⊢ <;> omega
      obtain ⟨h1, h2, h3⟩ := ih (r + 1) da bd h hb
      refine ⟨by omega, h2, ?_⟩
      have he : (addBusinessDaysLoop f (r + 1) da bd - r).toNat
          = (addBusinessDaysLoop f (r + 1) da bd - (r + 1)).toNat + 1 := by omega
      rw [he, countWeekdays, hw, h3]
      simp only [if_neg (by simp : ¬ (false = true))]
      omega

/-- C8: `addBusinessDays d 0 = d` for every date `d`, weekend or not; and
for `n ≥ 1` the walk moves strictly forward one day at a time counting only
Monday–Friday days: the result is a weekday later than `d`, and the number
of weekdays in the interval `(d, result]` is exactly `n` — i.e. the result
is the `n`-th weekday increment after `d`. -/
theorem claim8_add_business_days (d n : Int) :
    addBusinessDays d 0 = d ∧
    (1 ≤ n →
      d < addBusinessDays d n ∧ isWeekday (addBusinessDays d n) = true ∧
      countWeekdays d (addBusinessDays d n - d).toNat = n.toNat) := by
  constructor
  · simp [addBusinessDays]
  · intro hn
    have hne : ¬ (n = 0) := by omega
    unfold addBusinessDays
    rw [if_neg hne]
    have hb : 3 * (n - 0).toNat + weekendPad d ≤ 3 * n.toNat + 3 := by
      have := weekendPad_le d
      omega
    obtain ⟨h1, h2, h3⟩ := addBusinessDaysLoop_spec (3 * n.toNat + 3) d 0 n (by omega) hb
    refine ⟨h1, h2, ?_⟩
    rw [h3]
    omega

/-- C8 witness: one business day after Friday (day 5) is the following
Monday (day 8), skipping the weekend. -/
theorem claim8_witness :
    (5 : Int) < addBusinessDays 5 1 ∧ isWeekday (addBusinessDays 5 1) = true ∧
    countWeekdays 5 (addBusinessDays 5 1 - 5).toNat = (1 : Int).toNat :=
  (claim8_add_business_days 5 1).2 (by decide)


/-! ## Schedule-writer lemmas -/


lemma rowMatches_true_iff (j s w : Int) (r : SchedRow) :
    rowMatches j s w r = true ↔ r.jobId = j ∧ r.stageId = s ∧ r.weekStart = w := by
  simp [rowMatches, and_assoc]

lemma sumForStage_cons (x : SchedRow) (xs : List SchedRow) (J S : Int) :
    sumForStage (x :: xs) J S =
      (if x.jobId = J ∧ x.stageId = S then x.scheduledSamples else 0) + sumForStage xs J S := by
  simp only [sumForStage, List.filter_cons]
  by_cases h : x.jobId = J ∧ x.stageId = S
  · rw [if_pos (by simp [h.1, h.2]), if_pos h]
    simp
  · rw [if_neg (by simpa using h), if_neg h]
    simp

lemma sumForStage_append (xs ys : List SchedRow) (J S : Int) :
    sumForStage (xs ++ ys) J S = sumForStage xs J S + sumForStage ys J S := by
  simp [sumForStage, List.filter_append]

lemma sumForStageWeek_cons (x : SchedRow) (xs : List SchedRow) (J S W : Int) :
    sumForStageWeek (x :: xs) J S W =
      (if x.jobId = J ∧ x.stageId = S ∧ x.weekStart = W then x.scheduledSamples else 0) +
        sumForStageWeek xs J S W := by
  simp only [sumForStageWeek, List.filter_cons]
  by_cases h : x.jobId = J ∧ x.stageId = S ∧ x.weekStart = W
  · rw [if_pos (by simp [rowMatches, h.1, h.2.1, h.2.2]), if_pos h]
    simp
  · rw [if_neg (by simpa [rowMatches_true_iff] using h), if_neg h]
    simp

lemma sumForStageWeek_append (xs ys : List SchedRow) (J S W : Int) :
    sumForStageWeek (xs ++ ys) J S W = sumForStageWeek xs J S W + sumForStageWeek ys J S W := by
  simp [sumForStageWeek, List.filter_append]



lemma map_upd_nomatch (rows : List SchedRow) (j s w q : Int)
    (h : ∀ r ∈ rows, rowMatches j s w r = false) :
    rows.map (fun r => if rowMatches j s w r then
        { r with scheduledSamples := r.scheduledSamples + q } else r) = rows := by
  induction rows with
  | nil => rfl
  | cons a l ih =>
    simp only [List.map_cons]
    rw [if_neg (by simp [h a (List.mem_cons_self a l)]),
      ih (fun r hr => h r (List.mem_cons_of_mem a hr))]

lemma sumForStage_map_upd (rows : List SchedRow) (j s w q J S : Int)
    (h1 : (rows.filter (rowMatches j s w)).length ≤ 1) :
    sumForStage (rows.map (fun r => if rowMatches j s w r then
        { r with scheduledSamples := r.scheduledSamples + q } else r)) J S =
      sumForStage rows J S +
        (if rows.any (rowMatches j s w) ∧ J = j ∧ S = s then q else 0) := by
  induction rows with
  | nil => simp [sumForStage]
  | cons a l ih =>
    rw [List.map_cons]
    cases hm : rowMatches j s w a with
    | true =>
      obtain ⟨hkj, hks, hkw⟩ := (rowMatches_true_iff j s w a).mp hm
      have hfl : ∀ r ∈ l, rowMatches j s w r = false := by
        intro r hr
        have : (List.filter (rowMatches j s w) l).length = 0 := by
          have := h1
          rw [List.filter_cons, if_pos hm] at this
          simpa using this
        rw [List.length_eq_zero] at this
        by_contra hc
        have : r ∈ List.filter (rowMatches j s w) l := by
          rw [List.mem_filter]
          exact ⟨hr, by simpa using hc⟩
        simp_all
      simp only [hm, if_pos trivial]
      rw [map_upd_nomatch l j s w q hfl, sumForStage_cons, sumForStage_cons]
      have hany : (a :: l).any (rowMatches j s w) = true := by
        simp [List.any_cons, hm]
      rw [hany]
      simp only [hkj, hks, true_and]
      by_cases hJS : j = J ∧ s = S
      · rw [if_pos hJS, if_pos hJS, if_pos ⟨hJS.1.symm, hJS.2.symm⟩]
        ring
      · have hJS' : ¬ (J = j ∧ S = s) := fun hc => hJS ⟨hc.1.symm, hc.2.symm⟩
        rw [if_neg hJS, if_neg hJS, if_neg hJS']
        ring
    | false =>
      have h1' : (l.filter (rowMatches j s w)).length ≤ 1 := by
        have := h1
        rwa [List.filter_cons, if_neg (by simp [hm])] at this
      simp only [hm, if_neg (by simp : ¬ (false = true))]
      rw [sumForStage_cons, sumForStage_cons, ih h1']
      have hany : (a :: l).any (rowMatches j s w) = l.any (rowMatches j s w) := by
        simp [List.any_cons, hm]
      rw [hany]
      ring

lemma sumForStage_sqw (rows : List SchedRow) (j s w q J S : Int)
    (h1 : (rows.filter (rowMatches j s w)).length ≤ 1) :
    sumForStage (scheduleQuantityForWeek rows j s w q) J S =
      sumForStage rows J S + (if J = j ∧ S = s then q else 0) := by
  unfold scheduleQuantityForWeek
  by_cases hany : rows.any (rowMatches j s w) = true
  · rw [if_pos hany, sumForStage_map_upd rows j s w q J S h1, hany]
    simp
  · rw [if_neg hany, sumForStage_append, sumForStage_cons]
    have : sumForStage ([] : List SchedRow) J S = 0 := by simp [sumForStage]
    rw [this]
    by_cases hJS : J = j ∧ S = s
    · rw [if_pos ⟨hJS.1.symm, hJS.2.symm⟩, if_pos hJS]
      ring
    · rw [if_neg (fun hc => hJS ⟨hc.1.symm, hc.2.symm⟩), if_neg hJS]
      ring



lemma sumForStageWeek_map_upd (rows : List SchedRow) (j s w q J S W : Int)
    (h1 : (rows.filter (rowMatches j s w)).length ≤ 1) :
    sumForStageWeek (rows.map (fun r => if rowMatches j s w r then
        { r with scheduledSamples := r.scheduledSamples + q } else r)) J S W =
      sumForStageWeek rows J S W +
        (if rows.any (rowMatches j s w) ∧ J = j ∧ S = s ∧ W = w then q else 0) := by
  induction rows with
  | nil => simp [sumForStageWeek]
  | cons a l ih =>
    rw [List.map_cons]
    cases hm : rowMatches j s w a with
    | true =>
      obtain ⟨hkj, hks, hkw⟩ := (rowMatches_true_iff j s w a).mp hm
      have hfl : ∀ r ∈ l, rowMatches j s w r = false := by
        intro r hr
        have : (List.filter (rowMatches j s w) l).length = 0 := by
          have := h1
          rw [List.filter_cons, if_pos hm] at this
          simpa using this
        rw [List.length_eq_zero] at this
        by_contra hc
        have : r ∈ List.filter (rowMatches j s w) l := by
          rw [List.mem_filter]
          exact ⟨hr, by simpa using hc⟩
        simp_all
      simp only [hm, if_pos trivial]
      rw [map_upd_nomatch l j s w q hfl, sumForStageWeek_cons, sumForStageWeek_cons]
      have hany : (a :: l).any (rowMatches j s w) = true := by
        simp [List.any_cons, hm]
      rw [hany]
      simp only [hkj, hks, hkw, true_and]
      by_cases hJS : j = J ∧ s = S ∧ w = W
      · rw [if_pos hJS, if_pos hJS, if_pos ⟨hJS.1.symm, hJS.2.1.symm, hJS.2.2.symm⟩]
        ring
      · have hJS' : ¬ (J = j ∧ S = s ∧ W = w) := fun hc =>
          hJS ⟨hc.1.symm, hc.2.1.symm, hc.2.2.symm⟩
        rw [if_neg hJS, if_neg hJS, if_neg hJS']
        ring
    | false =>
      have h1' : (l.filter (rowMatches j s w)).length ≤ 1 := by
        have := h1
        rwa [List.filter_cons, if_neg (by simp [hm])] at this
      simp only [hm, if_neg (by simp : ¬ (false = true))]
      rw [sumForStageWeek_cons, sumForStageWeek_cons, ih h1']
      have hany : (a :: l).any (rowMatches j s w) = l.any (rowMatches j s w) := by
        simp [List.any_cons, hm]
      rw [hany]
      ring

lemma sumForStageWeek_sqw (rows : List SchedRow) (j s w q J S W : Int)
    (h1 : (rows.filter (rowMatches j s w)).length ≤ 1) :
    sumForStageWeek (scheduleQuantityForWeek rows j s w q) J S W =
      sumForStageWeek rows J S W + (if J = j ∧ S = s ∧ W = w then q else 0) := by
  unfold scheduleQuantityForWeek
  by_cases hany : rows.any (rowMatches j s w) = true
  · rw [if_pos hany, sumForStageWeek_map_upd rows j s w q J S W h1, hany]
    simp
  · rw [if_neg hany, sumForStageWeek_append, sumForStageWeek_cons]
    have : sumForStageWeek ([] : List SchedRow) J S W = 0 := by simp [sumForStageWeek]
    rw [this]
    by_cases hJS : J = j ∧ S = s ∧ W = w
    · rw [if_pos ⟨hJS.1.symm, hJS.2.1.symm, hJS.2.2.symm⟩, if_pos hJS]
      ring
    · rw [if_neg (fun hc => hJS ⟨hc.1.symm, hc.2.1.symm, hc.2.2.symm⟩), if_neg hJS]
      ring

lemma rowMatches_upd (j s w q j2 s2 w2 : Int) (r : SchedRow) :
    rowMatches j2 s2 w2 (if rowMatches j s w r then
      { r with scheduledSamples := r.scheduledSamples + q } else r) = rowMatches j2 s2 w2 r := by
  by_cases h : rowMatches j s w r = true
  · rw [if_pos h]
    simp [rowMatches]
  · rw [if_neg h]

lemma amopk_sqw (rows : List SchedRow) (jId s w q : Int)
    (h : AtMostOnePerKey rows jId) :
    AtMostOnePerKey (scheduleQuantityForWeek rows jId s w q) jId := by
  intro s' w'
  unfold scheduleQuantityForWeek
  by_cases hany : rows.any (rowMatches jId s w) = true
  · rw [if_pos hany]
    have : (rows.map (fun r => if rowMatches jId s w r then
        { r with scheduledSamples := r.scheduledSamples + q } else r)).filter
          (rowMatches jId s' w')
        = (rows.filter (fun r => rowMatches jId s' w' (if rowMatches jId s w r then
            { r with scheduledSamples := r.scheduledSamples + q } else r))).map
          (fun r => if rowMatches jId s w r then
            { r with scheduledSamples := r.scheduledSamples + q } else r) := by
      rw [List.filter_map]
      rfl
    rw [this, List.length_map]
    have heq : (rows.filter (fun r => rowMatches jId s' w' (if rowMatches jId s w r then
        { r with scheduledSamples := r.scheduledSamples + q } else r)))
        = rows.filter (rowMatches jId s' w') := by
      apply List.filter_congr
      intro r _
      rw [rowMatches_upd]
    rw [heq]
    exact h s' w'
  · rw [if_neg hany, List.filter_append, List.length_append]
    by_cases hkey : s' = s ∧ w' = w
    · have hzero : (rows.filter (rowMatches jId s w)).length = 0 := by
        rw [List.length_eq_zero, List.filter_eq_nil_iff]
        intro r hr hc
        exact hany (List.any_eq_true.mpr ⟨r, hr, hc⟩)
      have hone : (List.filter (rowMatches jId s w)
          [{ jobId := jId, stageId := s, weekStart := w, scheduledSamples := q }]).length ≤ 1 := by
        simp [List.filter_cons, rowMatches]
      rw [hkey.1, hkey.2]
      omega
    · have hnew : rowMatches jId s' w'
          ({ jobId := jId, stageId := s, weekStart := w, scheduledSamples := q } : SchedRow)
          = false := by
        rw [← Bool.not_eq_true, rowMatches_true_iff]
        rintro ⟨-, hs, hw⟩
        exact hkey ⟨hs.symm, hw.symm⟩
      have hzero : (List.filter (rowMatches jId s' w')
          [{ jobId := jId, stageId := s, weekStart := w, scheduledSamples := q }]).length = 0 := by
        simp [List.filter_cons, hnew]
      have h2 := h s' w'
      omega



lemma sqw_frame (keep own : List SchedRow) (jId s w q : Int)
    (h : ∀ r ∈ keep, (r.jobId == jId) = false) :
    scheduleQuantityForWeek (keep ++ own) jId s w q =
      keep ++ scheduleQuantityForWeek own jId s w q := by
  have hkeep : ∀ r ∈ keep, rowMatches jId s w r = false := by
    intro r hr
    simp only [rowMatches, h r hr, Bool.false_and]
  have hanyk : keep.any (rowMatches jId s w) = false := by
    rw [List.any_eq_false]
    intro r hr
    simp [hkeep r hr]
  unfold scheduleQuantityForWeek
  rw [List.any_append, hanyk, Bool.false_or]
  by_cases hany : own.any (rowMatches jId s w) = true
  · rw [if_pos hany, if_pos hany, List.map_append, map_upd_nomatch keep jId s w q hkeep]
  · rw [if_neg hany, if_neg hany, List.append_assoc]

lemma sqw_all_jobId (rows : List SchedRow) (jId s w q : Int)
    (h : ∀ r ∈ rows, r.jobId = jId) :
    ∀ r ∈ scheduleQuantityForWeek rows jId s w q, r.jobId = jId := by
  unfold scheduleQuantityForWeek
  by_cases hany : rows.any (rowMatches jId s w) = true
  · rw [if_pos hany]
    intro r hr
    rw [List.mem_map] at hr
    obtain ⟨a, ha, rfl⟩ := hr
    by_cases hm : rowMatches jId s w a = true
    · rw [if_pos hm]
      exact h a ha
    · rw [if_neg hm]
      exact h a ha
  · rw [if_neg hany]
    intro r hr
    rw [List.mem_append] at hr
    rcases hr with hr | hr
    · exact h r hr
    · simp at hr
      subst hr
      rfl


/-! ## List helpers and the split/hold rule (C4) -/


lemma ls_get_set_self {α : Type} : ∀ (l : List α) (i : Nat) (x : α), i < l.length →
    (l.set i x).get? i = some x := by
  intro l
  induction l with
  | nil => intro i x h; simp at h
  | cons a t ih =>
    intro i x h
    cases i with
    | zero => rfl
    | succ n =>
      simp only [List.set]
      rw [List.get?]
      exact ih n x (by simpa using h)

lemma ls_get_set_ne {α : Type} : ∀ (l : List α) (i j : Nat) (x : α), i ≠ j →
    (l.set i x).get? j = l.get? j := by
  intro l
  induction l with
  | nil => intro i j x _; simp
  | cons a t ih =>
    intro i j x h
    cases i with
    | zero =>
      cases j with
      | zero => exact absurd rfl h
      | succ m => rfl
    | succ n =>
      cases j with
      | zero => rfl
      | succ m =>
        simp only [List.set]
        rw [List.get?, List.get?]
        exact ih n m x (fun hc => h (by rw [hc]))

/-- C4: the split/hold rule.  When an active batch of quantity `q` advances
into the pipeline entry after its last-scheduled stage and that next stage
defines `proceedWithTestQty = P`, the quantity added to the next stage's
schedule total is `min P q`; the batch itself continues with `min P q`; if
`max (q - P) 0` is nonzero a new batch is appended with that quantity,
last-scheduled-stage equal to the advancing batch's previous stage,
`held = true`, not completed, and release-trigger equal to the next stage's
`releaseRemainingAtStageId`; if the held quantity is zero no batch is
spawned.  If the next stage defines no `proceedWithTestQty`, the full `q`
advances and the batch list does not grow. -/
theorem claim4_split_rule (stages : List StageData) (jobId arrive : Int) (st : PlanState)
    (i : Nat) (batch : Batch) (nextStage : StageData)
    (hb : st.batches.get? i = some batch)
    (hheld : batch.held = false) (hcomp : batch.schedulingCompleted = false)
    (hpt : batch.lastScheduledStage = none ∨ ∃ sd, jsGet stages (posOf stages batch) = some sd)
    (hnext : jsGet stages (posOf stages batch + 1) = some nextStage)
    (hku : AtMostOnePerKey st.rows jobId) :
    ∃ st' forDate, advanceBatch stages jobId arrive st i =
        .ok (st', some (nextStage.stageId, forDate, getWeekStart forDate)) ∧
      (∀ P, nextStage.proceedWithTestQty = some P →
        sumForStage st'.rows jobId nextStage.stageId
            = sumForStage st.rows jobId nextStage.stageId + min P batch.qty ∧
        (∃ b', st'.batches.get? i = some b' ∧ b'.qty = min P batch.qty ∧
          b'.lastScheduledStage = some nextStage.stageId) ∧
        (max (batch.qty - P) 0 ≠ 0 →
          st'.batches.length = st.batches.length + 1 ∧
          st'.batches.getLast? = some
            { qty := max (batch.qty - P) 0
              lastScheduledStage := batch.lastScheduledStage
              held := true
              schedulingCompleted := false
              lastScheduledDate := none
              releaseQtyHeldAtStage := nextStage.releaseRemainingAtStageId }) ∧
        (max (batch.qty - P) 0 = 0 → st'.batches.length = st.batches.length)) ∧
      (nextStage.proceedWithTestQty = none →
        sumForStage st'.rows jobId nextStage.stageId
            = sumForStage st.rows jobId nextStage.stageId + batch.qty ∧
        st'.batches.length = st.batches.length ∧
        (∃ b', st'.batches.get? i = some b' ∧ b'.qty = batch.qty ∧
          b'.lastScheduledStage = some nextStage.stageId)) := by
  have hlen : i < st.batches.length := (List.get?_eq_some.mp hb).1
  unfold advanceBatch
  rw [hb]
  simp only [hheld, hcomp, Bool.or_self, Bool.false_eq_true, if_neg (by simp : ¬ (false = true))]
  rcases hls : batch.lastScheduledStage with _ | s
  case none =>
    have hnext0 : jsGet stages 0 = some nextStage := by
      have : posOf stages batch = -1 := by simp [posOf, hls]
      rw [this] at hnext
      norm_num at hnext
      exact hnext
    simp only [hls, hnext0]
    refine ⟨_, _, rfl, ?_, ?_⟩
    · intro P hP
      simp only [hP]
      refine ⟨?_, ?_, ?_, ?_⟩
      · rw [sumForStage_sqw _ _ _ _ _ _ _ (hku _ _), if_pos ⟨rfl, rfl⟩]
      · by_cases hz : max (batch.qty - P) 0 ≠ 0
        · rw [if_pos (by simpa [bne_iff_ne] using hz),
            List.get?_append (by simpa using hlen), ls_get_set_self _ _ _ hlen]
          exact ⟨_, rfl, rfl, rfl⟩
        · push_neg at hz
          rw [if_neg (by simpa [bne_iff_ne] using hz), ls_get_set_self _ _ _ hlen]
          exact ⟨_, rfl, rfl, rfl⟩
      · intro hz
        rw [if_pos (by simpa [bne_iff_ne] using hz)]
        constructor
        · simp
        · rw [List.getLast?_concat]
      · intro hz
        rw [if_neg (by simpa [bne_iff_ne] using hz)]
        simp
    · intro hP
      simp only [hP]
      refine ⟨?_, ?_, ?_⟩
      · rw [sumForStage_sqw _ _ _ _ _ _ _ (hku _ _), if_pos ⟨rfl, rfl⟩]
      · rw [if_neg (by simp)]
        simp
      · rw [if_neg (by simp), ls_get_set_self _ _ _ hlen]
        exact ⟨_, rfl, rfl, rfl⟩
  case some =>
    rcases hpt with hpt | ⟨sd, hsd⟩
    · rw [hls] at hpt; exact absurd hpt (by simp)
    have hposeq : posOf stages batch = jsFindIdx stages (fun x => x.stageId == s) := by
      simp [posOf, hls]
    rw [hposeq] at hsd hnext
    simp only [hls, hsd, hnext]
    refine ⟨_, _, rfl, ?_, ?_⟩
    · intro P hP
      simp only [hP]
      refine ⟨?_, ?_, ?_, ?_⟩
      · rw [sumForStage_sqw _ _ _ _ _ _ _ (hku _ _), if_pos ⟨rfl, rfl⟩]
      · by_cases hz : max (batch.qty - P) 0 ≠ 0
        · rw [if_pos (by simpa [bne_iff_ne] using hz),
            List.get?_append (by simpa using hlen), ls_get_set_self _ _ _ hlen]
          exact ⟨_, rfl, rfl, rfl⟩
        · push_neg at hz
          rw [if_neg (by simpa [bne_iff_ne] using hz), ls_get_set_self _ _ _ hlen]
          exact ⟨_, rfl, rfl, rfl⟩
      · intro hz
        rw [if_pos (by simpa [bne_iff_ne] using hz)]
        constructor
        · simp
        · rw [List.getLast?_concat]
      · intro hz
        rw [if_neg (by simpa [bne_iff_ne] using hz)]
        simp
    · intro hP
      simp only [hP]
      refine ⟨?_, ?_, ?_⟩
      · rw [sumForStage_sqw _ _ _ _ _ _ _ (hku _ _), if_pos ⟨rfl, rfl⟩]
      · rw [if_neg (by simp)]
        simp
      · rw [if_neg (by simp), ls_get_set_self _ _ _ hlen]
        exact ⟨_, rfl, rfl, rfl⟩

/-- C4 witness: a batch of 5 advancing into a stage capped at 2 schedules
2 and spawns a held batch, growing the batch list to two entries. -/
theorem claim4_witness :
    ∃ st' forDate,
      advanceBatch c4Stages 1 1 { batches := [c4Batch], rows := [] } 0 =
        .ok (st', some ((2 : Int), forDate, getWeekStart forDate)) ∧
      sumForStage st'.rows 1 2 = sumForStage ([] : List SchedRow) 1 2 + min 2 c4Batch.qty ∧
      st'.batches.length = 2 := by
  obtain ⟨st', fd, hrun, hcap, hnone⟩ := claim4_split_rule c4Stages 1 1
    { batches := [c4Batch], rows := [] } 0 c4Batch c4Stage2 (by decide) (by decide) (by decide)
    (Or.inr ⟨c4Stage1, by decide⟩) (by decide) (fun s w => by simp)
  obtain ⟨hsum, hb, hspawn, hnospawn⟩ := hcap 2 (by decide)
  exact ⟨st', fd, hrun, hsum, (hspawn (by decide)).1⟩


/-! ## The release rule (C3) -/


lemma ls_drop_set {α : Type} : ∀ (l : List α) (i : Nat) (x : α),
    (l.set i x).drop (i + 1) = l.drop (i + 1) := by
  intro l
  induction l with
  | nil => intro i x; rfl
  | cons a t ih =>
    intro i x
    cases i with
    | zero => rfl
    | succ n =>
      simp only [List.set, List.drop_succ_cons]
      exact ih n x

lemma ls_drop_eq_cons {α : Type} : ∀ (l : List α) (j : Nat) (b : α),
    l.get? j = some b → l.drop j = b :: l.drop (j + 1) := by
  intro l
  induction l with
  | nil => intro j b h; simp [List.get?] at h
  | cons a t ih =>
    intro j b h
    cases j with
    | zero =>
      simp only [List.get?] at h
      cases h
      rfl
    | succ n =>
      simp only [List.get?] at h
      simp only [List.drop_succ_cons]
      exact ih n b h

lemma releaseScan_spec (stages : List StageData) (jobId trigger : Int) (relDate : Option Int)
    (weekStart : Int) :
    ∀ (fuel j : Nat) (st st' : PlanState),
      releaseScan stages jobId trigger relDate weekStart fuel j st = .ok st' →
      st.batches.length ≤ fuel + j →
      AtMostOnePerKey st.rows jobId →
      st'.batches.length = st.batches.length ∧
      (∀ k, k < j → st'.batches.get? k = st.batches.get? k) ∧
      (∀ k b, j ≤ k → st.batches.get? k = some b → releasedBy b trigger = false →
        st'.batches.get? k = some b) ∧
      (∀ k b, j ≤ k → st.batches.get? k = some b → releasedBy b trigger = true →
        ∃ rst, jsGet stages (releaseTargetIdx stages b) = some rst ∧
          st'.batches.get? k = some
            { b with
              held := false
              releaseQtyHeldAtStage := none
              lastScheduledDate := relDate
              lastScheduledStage := some rst.stageId
              schedulingCompleted :=
                if releaseTargetIdx stages b = (stages.length : Int) - 1 then true
                else b.schedulingCompleted }) ∧
      (∀ S, sumForStage st'.rows jobId S =
        sumForStage st.rows jobId S +
          (((st.batches.drop j).filter (releasedInto stages trigger S)).map
            (fun b => b.qty)).sum) ∧
      (∀ S W, W ≠ weekStart →
        sumForStageWeek st'.rows jobId S W = sumForStageWeek st.rows jobId S W) ∧
      AtMostOnePerKey st'.rows jobId := by
  intro fuel
  induction fuel with
  | zero =>
    intro j st st' hrun hlen hku
    rw [releaseScan] at hrun
    by_cases hj : j < st.batches.length
    · rw [if_pos hj] at hrun
      exact absurd hrun (by simp)
    · rw [if_neg hj] at hrun
      cases hrun
      push_neg at hj
      have hdrop : st.batches.drop j = [] := List.drop_eq_nil_of_le hj
      refine ⟨rfl, fun k _ => rfl, fun k b _ hb _ => hb, ?_, ?_, fun S W _ => rfl, hku⟩
      · intro k b hk hb _
        exact absurd hb (by rw [List.get?_eq_none.mpr (le_trans hj hk)]; simp)
      · intro S
        rw [hdrop]
        simp
  | succ fuel ih =>
    intro j st st' hrun hlen hku
    rw [releaseScan] at hrun
    cases hget : st.batches.get? j with
    | none =>
      simp only [hget] at hrun
      cases hrun
      have hj : st.batches.length ≤ j := List.get?_eq_none.mp hget
      have hdrop : st.batches.drop j = [] := List.drop_eq_nil_of_le hj
      refine ⟨rfl, fun k _ => rfl, fun k b _ hb _ => hb, ?_, ?_, fun S W _ => rfl, hku⟩
      · intro k b hk hb _
        exact absurd hb (by rw [List.get?_eq_none.mpr (le_trans hj hk)]; simp)
      · intro S
        rw [hdrop]
        simp
    | some heldBatch =>
      simp only [hget] at hrun
      have hjlen : j < st.batches.length := (List.get?_eq_some.mp hget).1
      have hdropj : st.batches.drop j = heldBatch :: st.batches.drop (j + 1) :=
        ls_drop_eq_cons _ _ _ hget
      cases hrel : releasedBy heldBatch trigger with
      | false =>
        rw [hrel, if_neg (by simp)] at hrun
        obtain ⟨hl, hlt, hfalse, htrue, hsum, hweek, hku2⟩ :=
          ih (j + 1) st st' hrun (by omega) hku
        refine ⟨hl, ?_, ?_, ?_, ?_, hweek, hku2⟩
        · intro k hk
          exact hlt k (by omega)
        · intro k b hk hb hbf
          rcases Nat.eq_or_lt_of_le hk with hk | hk
          · subst hk
            rw [hlt j (by omega), hb]
          · exact hfalse k b (by omega) hb hbf
        · intro k b hk hb hbt
          rcases Nat.eq_or_lt_of_le hk with hk | hk
          · subst hk
            rw [hget] at hb
            cases hb
            rw [hrel] at hbt
            exact absurd hbt (by simp)
          · exact htrue k b (by omega) hb hbt
        · intro S
          rw [hsum S, hdropj, List.filter_cons,
            if_neg (by simp [releasedInto, hrel])]
      | true =>
        rw [hrel, if_pos rfl] at hrun
        cases hjs : jsGet stages (releaseTargetIdx stages heldBatch) with
        | none =>
          simp only [hjs] at hrun
          exact absurd hrun (by simp)
        | some rst =>
          simp only [hjs] at hrun
          obtain ⟨hl, hlt, hfalse, htrue, hsum, hweek, hku2⟩ :=
            ih (j + 1) _ st' hrun
              (by simp only [List.length_set]; omega)
              (amopk_sqw _ _ _ _ _ hku)
          have hmidget : ∀ k, k ≠ j →
              (st.batches.set j
                { heldBatch with
                  held := false
                  releaseQtyHeldAtStage := none
                  lastScheduledDate := relDate
                  lastScheduledStage := some rst.stageId
                  schedulingCompleted :=
                    if releaseTargetIdx stages heldBatch = (stages.length : Int) - 1 then true
                    else heldBatch.schedulingCompleted }).get? k = st.batches.get? k := by
            intro k hk
            exact ls_get_set_ne _ _ _ _ (fun hc => hk hc.symm)
          refine ⟨?_, ?_, ?_, ?_, ?_, ?_, hku2⟩
          · rw [hl, List.length_set]
          · intro k hk
            rw [hlt k (by omega), hmidget k (by omega)]
          · intro k b hk hb hbf
            rcases Nat.eq_or_lt_of_le hk with hk | hk
            · subst hk
              rw [hget] at hb
              cases hb
              rw [hrel] at hbf
              exact absurd hbf (by simp)
            · rw [hfalse k b (by omega) (by rw [hmidget k (by omega), hb]) hbf]
          · intro k b hk hb hbt
            rcases Nat.eq_or_lt_of_le hk with hk | hk
            · subst hk
              rw [hget] at hb
              cases hb
              refine ⟨rst, hjs, ?_⟩
              rw [hlt j (by omega), ls_get_set_self _ _ _ hjlen]
            · exact htrue k b (by omega) (by rw [hmidget k (by omega), hb]) hbt
          · intro S
            rw [hsum S, ls_drop_set, hdropj, List.filter_cons,
              sumForStage_sqw _ _ _ _ _ _ _ (hku _ _)]
            by_cases hS : S = rst.stageId
            · have hcond : releasedInto stages trigger S heldBatch = true := by
                simp only [releasedInto, hrel, hjs, Option.map_some', beq_iff_eq,
                  Bool.true_and, Option.some_inj]
                exact hS.symm
              rw [if_pos ⟨rfl, hS⟩, if_pos hcond]
              simp only [List.map_cons, List.sum_cons]
              ring
            · have hcond : ¬ (releasedInto stages trigger S heldBatch = true) := by
                simp only [releasedInto, hrel, hjs, Option.map_some', beq_iff_eq,
                  Bool.true_and, Option.some_inj]
                exact fun hc => hS hc.symm
              rw [if_neg (fun hc => hS hc.2), if_neg hcond]
              ring
          · intro S W hW
            rw [hweek S W hW, sumForStageWeek_sqw _ _ _ _ _ _ _ _ (hku _ _),
              if_neg (fun hc => hW hc.2.2)]
            ring

/-- C3: the release rule.  When the release scan runs after a batch was
scheduled into trigger stage `trigger` for week `weekStart`, every held
batch whose release-trigger equals `trigger` is released into the pipeline
entry immediately after its OWN last-scheduled stage (not the releasing
batch's stage): its state records that stage and the triggering batch's
date, it is no longer held, and it is completed exactly when the release
stage is the pipeline's last entry.  Its full held quantity is added to
that release stage's schedule total, all of it in week `weekStart` (sums
for every other week are untouched).  Batches that do not match the
trigger are unchanged. -/
theorem claim3_release_rule (stages : List StageData) (jobId trigger : Int)
    (relDate : Option Int) (weekStart : Int) (st st' : PlanState)
    (hku : AtMostOnePerKey st.rows jobId)
    (hrun : releaseScan stages jobId trigger relDate weekStart st.batches.length 0 st
      = .ok st') :
    st'.batches.length = st.batches.length ∧
    (∀ k b, st.batches.get? k = some b → releasedBy b trigger = false →
      st'.batches.get? k = some b) ∧
    (∀ k b, st.batches.get? k = some b → releasedBy b trigger = true →
      ∃ rst, jsGet stages (releaseTargetIdx stages b) = some rst ∧
        st'.batches.get? k = some
          { b with
            held := false
            releaseQtyHeldAtStage := none
            lastScheduledDate := relDate
            lastScheduledStage := some rst.stageId
            schedulingCompleted :=
              if releaseTargetIdx stages b = (stages.length : Int) - 1 then true
              else b.schedulingCompleted }) ∧
    (∀ S, sumForStage st'.rows jobId S =
      sumForStage st.rows jobId S +
        ((st.batches.filter (releasedInto stages trigger S)).map (fun b => b.qty)).sum) ∧
    (∀ S W, W ≠ weekStart →
      sumForStageWeek st'.rows jobId S W = sumForStageWeek st.rows jobId S W) := by
  obtain ⟨hl, _, hf, ht, hs, hw, _⟩ := releaseScan_spec stages jobId trigger relDate weekStart
    st.batches.length 0 st st' hrun (by omega) hku
  refine ⟨hl, fun k b hb => hf k b (Nat.zero_le k) hb,
    fun k b hb => ht k b (Nat.zero_le k) hb, ?_, hw⟩
  intro S
  have := hs S
  rwa [List.drop_zero] at this

/-- C3 witness: a held batch of 7 parked after stage 1 is released into
stage 2 (the entry after its own last-scheduled stage) when trigger stage 9
is scheduled. -/
theorem claim3_witness :
    ∃ st' rst,
      releaseScan c3Stages 1 9 (some 5) 11 c3State.batches.length 0 c3State = .ok st' ∧
      jsGet c3Stages (releaseTargetIdx c3Stages c3Held) = some rst ∧
      st'.batches.get? 0 = some
        { c3Held with
          held := false
          releaseQtyHeldAtStage := none
          lastScheduledDate := some 5
          lastScheduledStage := some rst.stageId
          schedulingCompleted :=
            if releaseTargetIdx c3Stages c3Held = (c3Stages.length : Int) - 1 then true
            else c3Held.schedulingCompleted } := by
  have hrun : releaseScan c3Stages 1 9 (some 5) 11 c3State.batches.length 0 c3State =
      .ok { batches :=
              [{ qty := 7, lastScheduledStage := some 2, held := false,
                 schedulingCompleted := false, lastScheduledDate := some 5,
                 releaseQtyHeldAtStage := none }]
            rows := [{ jobId := 1, stageId := 2, weekStart := 11, scheduledSamples := 7 }] } := by
    decide
  obtain ⟨_, _, ht, _, _⟩ := claim3_release_rule c3Stages 1 9 (some 5) 11 c3State _
    (fun s w => by simp [c3State]) hrun
  obtain ⟨rst, h1, h2⟩ := ht 0 c3Held (by decide) (by decide)
  exact ⟨_, rst, hrun, h1, h2⟩


/-! ## Error classification and atomicity of the configuration errors (C7) -/


lemma releaseScan_error_kinds (stages : List StageData) (jobId trigger : Int)
    (relDate : Option Int) (weekStart : Int) :
    ∀ (fuel j : Nat) (st : PlanState) (e : PlanError) (st2 : PlanState),
      releaseScan stages jobId trigger relDate weekStart fuel j st = .error (e, st2) →
      e = .crash ∨ e = .fuelExhausted := by
  intro fuel
  induction fuel with
  | zero =>
    intro j st e st2 h
    rw [releaseScan] at h
    by_cases hj : j < st.batches.length
    · rw [if_pos hj] at h
      cases h
      exact Or.inr rfl
    · rw [if_neg hj] at h
      exact absurd h (by simp)
  | succ fuel ih =>
    intro j st e st2 h
    rw [releaseScan] at h
    cases hget : st.batches.get? j with
    | none =>
      simp only [hget] at h
      exact absurd h (by simp)
    | some hb =>
      simp only [hget] at h
      cases hrel : releasedBy hb trigger with
      | false =>
        rw [hrel, if_neg (by simp)] at h
        exact ih _ _ _ _ h
      | true =>
        rw [hrel, if_pos rfl] at h
        cases hjs : jsGet stages (releaseTargetIdx stages hb) with
        | none =>
          simp only [hjs] at h
          cases h
          exact Or.inl rfl
        | some rst =>
          simp only [hjs] at h
          exact ih _ _ _ _ h

lemma advanceBatch_error_kinds (stages : List StageData) (jobId arrive : Int)
    (st : PlanState) (i : Nat) (e : PlanError) (st2 : PlanState)
    (h : advanceBatch stages jobId arrive st i = .error (e, st2)) : e = .crash := by
  unfold advanceBatch at h
  cases hget : st.batches.get? i with
  | none =>
    simp only [hget] at h
    cases h
    rfl
  | some batch =>
    simp only [hget] at h
    by_cases hskip : (batch.held || batch.schedulingCompleted) = true
    · rw [if_pos hskip] at h
      exact absurd h (by simp)
    · rw [if_neg hskip] at h
      cases hls : batch.lastScheduledStage with
      | none =>
        simp only [hls] at h
        cases hjs : jsGet stages 0 with
        | none =>
          simp only [hjs] at h
          cases h
          rfl
        | some ns =>
          simp only [hjs] at h
          exact absurd h (by simp)
      | some sId =>
        simp only [hls] at h
        cases hjs : jsGet stages (jsFindIdx stages (fun sd => sd.stageId == sId)) with
        | none =>
          simp only [hjs] at h
          cases h
          rfl
        | some sd =>
          simp only [hjs] at h
          cases hjs2 : jsGet stages (jsFindIdx stages (fun sd => sd.stageId == sId) + 1) with
          | none =>
            simp only [hjs2] at h
            cases h
            rfl
          | some ns =>
            simp only [hjs2] at h
            exact absurd h (by simp)

lemma processStep_error_kinds (stages : List StageData) (jobId arrive : Int)
    (st : PlanState) (i : Nat) (e : PlanError) (st2 : PlanState)
    (h : processStep stages jobId arrive st i = .error (e, st2)) :
    e = .crash ∨ e = .fuelExhausted := by
  unfold processStep at h
  cases hadv : advanceBatch stages jobId arrive st i with
  | error ep =>
    rw [hadv] at h
    cases h
    exact Or.inl (advanceBatch_error_kinds stages jobId arrive st i _ _ hadv)
  | ok pr =>
    rw [hadv] at h
    obtain ⟨st1, info⟩ := pr
    cases info with
    | none => exact absurd h (by simp)
    | some tri =>
      obtain ⟨trigger, forDate, weekStart⟩ := tri
      exact releaseScan_error_kinds stages jobId trigger (some forDate) weekStart _ _ _ _ _ h

lemma passLoop_error_kinds (stages : List StageData) (jobId arrive : Int) :
    ∀ (fuel i : Nat) (st : PlanState) (e : PlanError) (st2 : PlanState),
      passLoop stages jobId arrive fuel i st = .error (e, st2) →
      e = .crash ∨ e = .fuelExhausted := by
  intro fuel
  induction fuel with
  | zero =>
    intro i st e st2 h
    rw [passLoop] at h
    by_cases hi : i < st.batches.length
    · rw [if_pos hi] at h
      cases h
      exact Or.inr rfl
    · rw [if_neg hi] at h
      exact absurd h (by simp)
  | succ fuel ih =>
    intro i st e st2 h
    rw [passLoop] at h
    by_cases hi : i < st.batches.length
    · rw [if_pos hi] at h
      cases hps : processStep stages jobId arrive st i with
      | error ep =>
        rw [hps] at h
        cases h
        exact processStep_error_kinds stages jobId arrive st i _ _ hps
      | ok st1 =>
        rw [hps] at h
        exact ih _ _ _ _ h
    · rw [if_neg hi] at h
      exact absurd h (by simp)

lemma autoPlanLoop_error_kinds (stages : List StageData) (jobId arrive : Int) :
    ∀ (fuel iterations : Nat) (st : PlanState) (e : PlanError) (st2 : PlanState),
      autoPlanLoop stages jobId arrive fuel iterations st = .error (e, st2) →
      e = .deadlockNoProgress ∨ e = .maxIterationsExceeded ∨ e = .crash ∨
        e = .fuelExhausted := by
  intro fuel
  induction fuel with
  | zero =>
    intro iterations st e st2 h
    rw [autoPlanLoop] at h
    cases h
    exact Or.inr (Or.inr (Or.inr rfl))
  | succ fuel ih =>
    intro iterations st e st2 h
    rw [autoPlanLoop] at h
    by_cases hc : (st.batches.any fun b => !b.schedulingCompleted) = true ∧ iterations < 100
    · rw [if_pos hc] at h
      cases hpl : passLoop stages jobId arrive ((stages.length + 2) ^ (stages.length + 2)) 0
          { st with batches := sortBatches st.batches } with
      | error ep =>
        rw [hpl] at h
        cases h
        rcases passLoop_error_kinds stages jobId arrive _ _ _ _ _ hpl with h' | h'
        · exact Or.inr (Or.inr (Or.inl h'))
        · exact Or.inr (Or.inr (Or.inr h'))
      | ok st1 =>
        rw [hpl] at h
        dsimp only at h
        by_cases hdl : (!false) = true ∧ 10 < iterations + 1
        · rw [if_pos hdl] at h
          cases h
          exact Or.inl rfl
        · rw [if_neg hdl] at h
          exact ih _ _ _ _ h
    · rw [if_neg hc] at h
      by_cases hmax : 100 ≤ iterations
      · rw [if_pos hmax] at h
        cases h
        exact Or.inr (Or.inl rfl)
      · rw [if_neg hmax] at h
        exact absurd h (by simp)

/-- C7 (amended): the three configuration errors — job not found,
`ActivityTypeNotFound`, `NoApplicableStages` — are thrown before the delete
and before any write, so after such a failed call the schedules table is
exactly what it was before.  (The deadlock/iteration errors do NOT enjoy
this property: see `claim7_counterexample`.) -/
theorem claim7_amended_config_errors_atomic (db : Database) (jobId : Int) (e : PlanError)
    (rows : List SchedRow)
    (hrun : autoPlanJob db jobId = (.error e, rows))
    (he : e = .jobNotFound ∨ e = .activityTypeNotFound ∨ e = .noStages) :
    rows = db.schedules := by
  unfold autoPlanJob at hrun
  cases hj : getJob db jobId with
  | none =>
    rw [hj] at hrun
    cases hrun
    rfl
  | some job =>
    rw [hj] at hrun
    dsimp only at hrun
    cases hat : db.activityTypes.find? (fun a => a.name == job.activityType) with
    | none =>
      rw [hat] at hrun
      cases hrun
      rfl
    | some actType =>
      rw [hat] at hrun
      dsimp only at hrun
      by_cases hempty : (jobStagesFor db actType.id).length = 0
      · rw [if_pos hempty] at hrun
        cases hrun
        rfl
      · rw [if_neg hempty] at hrun
        split at hrun
        · exact absurd hrun (by simp)
        · rename_i ep stE heq
          cases hrun
          rcases autoPlanLoop_error_kinds _ _ _ _ _ _ _ _ heq with h' | h' | h' | h' <;>
            subst h' <;> rcases he with h2 | h2 | h2 <;> exact absurd h2 (by simp)

/-- C7 witness: a job whose activity type is missing leaves its
pre-existing schedule row untouched. -/
theorem claim7_witness :
    (autoPlanJob missingActivityTypeDb 1).2 = missingActivityTypeDb.schedules :=
  claim7_amended_config_errors_atomic missingActivityTypeDb 1 .activityTypeNotFound
    (autoPlanJob missingActivityTypeDb 1).2 (by decide) (Or.inr (Or.inl rfl))

end Scheduler

namespace Scheduler

lemma jsFindIdx_of_get {α β : Type} [BEq β] [LawfulBEq β] (f : α → β) :
    ∀ (l : List α) (n : Nat) (x : α), (l.map f).Nodup → l.get? n = some x →
      jsFindIdx l (fun y => f y == f x) = n := by
  intro l
  induction l with
  | nil => intro n x _ h; simp [List.get?] at h
  | cons a t ih =>
    intro n x hd h
    cases n with
    | zero =>
      simp only [List.get?] at h
      cases h
      simp [jsFindIdx]
    | succ m =>
      simp only [List.get?] at h
      have hmem : x ∈ t := List.get?_mem h
      have hne : ¬ (f a == f x) = true := by
        simp only [beq_iff_eq]
        intro hc
        have : f x ∈ t.map f := List.mem_map_of_mem f hmem
        rw [← hc] at this
        exact (List.nodup_cons.mp (by simpa using hd)).1 this
      have hrec := ih m x (List.nodup_cons.mp (by simpa using hd)).2 h
      simp only [jsFindIdx, hne, if_false]
      rw [hrec]
      have : ¬ ((m : Int) < 0) := by omega
      rw [if_neg this]
      push_cast
      ring

lemma jsFindIdx_found {α : Type} (p : α → Bool) :
    ∀ (l : List α), 0 ≤ jsFindIdx l p →
      ∃ x, l.get? (jsFindIdx l p).toNat = some x ∧ p x = true := by
  intro l
  induction l with
  | nil => intro h; simp [jsFindIdx] at h
  | cons a t ih =>
    intro h
    by_cases hpa : p a = true
    · refine ⟨a, ?_, hpa⟩
      simp [jsFindIdx, hpa]
    · rw [jsFindIdx, if_neg hpa] at h ⊢
      by_cases hneg : jsFindIdx t p < 0
      · rw [if_pos hneg] at h
        omega
      · rw [if_neg hneg] at h ⊢
        obtain ⟨x, hx, hpx⟩ := ih (by omega)
        refine ⟨x, ?_, hpx⟩
        have : (jsFindIdx t p + 1).toNat = (jsFindIdx t p).toNat + 1 := by omega
        rw [this]
        simpa using hx

lemma pendingSum_nil (stages : List StageData) (k : Nat) : pendingSum stages k [] = 0 := rfl

lemma pendingSum_cons (stages : List StageData) (k : Nat) (b : Batch) (bs : List Batch) :
    pendingSum stages k (b :: bs) = pendingAt stages k b + pendingSum stages k bs := by
  simp [pendingSum]

lemma pendingSum_append (stages : List StageData) (k : Nat) (bs l2 : List Batch) :
    pendingSum stages k (bs ++ l2) = pendingSum stages k bs + pendingSum stages k l2 := by
  simp [pendingSum]

lemma pendingSum_set (stages : List StageData) (k : Nat) :
    ∀ (bs : List Batch) (i : Nat) (b b' : Batch), bs.get? i = some b →
      pendingSum stages k (bs.set i b') =
        pendingSum stages k bs - pendingAt stages k b + pendingAt stages k b' := by
  intro bs
  induction bs with
  | nil => intro i b b' h; simp [List.get?] at h
  | cons a t ih =>
    intro i b b' h
    cases i with
    | zero =>
      simp only [List.get?] at h
      cases h
      simp only [List.set, pendingSum_cons]
      ring
    | succ m =>
      simp only [List.get?] at h
      simp only [List.set, pendingSum_cons, ih m b b' h]
      ring

lemma sum_filter_split {α : Type} (f : α → Int) (p : α → Bool) (l : List α) :
    ((l.filter p).map f).sum + ((l.filter (fun x => !p x)).map f).sum = (l.map f).sum := by
  induction l with
  | nil => simp
  | cons a t ih =>
    cases hpa : p a with
    | true => simp [List.filter_cons, hpa, ← ih]; ring
    | false => simp [List.filter_cons, hpa, ← ih]; ring

lemma pendingSum_sort (stages : List StageData) (k : Nat) (bs : List Batch) :
    pendingSum stages k (sortBatches bs) = pendingSum stages k bs := by
  unfold sortBatches
  rw [pendingSum_append]
  have := sum_filter_split (pendingAt stages k) (fun b => b.held) bs
  unfold pendingSum
  have hcomm : ∀ x y : Int, x + y = y + x := fun x y => by ring
  calc ((bs.filter (fun b => !b.held)).map (pendingAt stages k)).sum +
        ((bs.filter (fun b => b.held)).map (pendingAt stages k)).sum
      = ((bs.filter (fun b => b.held)).map (pendingAt stages k)).sum +
        ((bs.filter (fun b => !b.held)).map (pendingAt stages k)).sum := hcomm _ _
    _ = (bs.map (pendingAt stages k)).sum := this

lemma posOf_congr (stages : List StageData) (b b' : Batch)
    (h : b.lastScheduledStage = b'.lastScheduledStage) : posOf stages b = posOf stages b' := by
  simp [posOf, h]

end Scheduler

namespace Scheduler

lemma nodup_stageId_inj (stages : List StageData)
    (HN : (stages.map (fun sd => sd.stageId)).Nodup) (k n : Nat) (sd nsd : StageData)
    (hk : stages.get? k = some sd) (hn : stages.get? n = some nsd)
    (he : sd.stageId = nsd.stageId) : k = n := by
  have hk2 : (stages.map (fun sd => sd.stageId)).get? k = some sd.stageId := by
    rw [List.get?_map, hk]
    rfl
  have hn2 : (stages.map (fun sd => sd.stageId)).get? n = some nsd.stageId := by
    rw [List.get?_map, hn]
    rfl
  apply List.get?_inj (by rw [List.length_map]; exact (List.get?_eq_some.mp hk).1) HN
  rw [hk2, hn2, he]

lemma step_inv_core
    (stages : List StageData) (jobId q : Int) (st : PlanState) (i : Nat)
    (batch batch1 spawn : Batch) (nextStage : StageData) (n : Nat)
    (schedQty heldQty week : Int) (withSpawn : Bool)
    (HN : (stages.map (fun sd => sd.stageId)).Nodup)
    (hb : st.batches.get? i = some batch)
    (hcomp : batch.schedulingCompleted = false)
    (hpos : posOf stages batch = (n : Int) - 1)
    (hn : stages.get? n = some nextStage)
    (hq : schedQty + heldQty = batch.qty)
    (hb1q : batch1.qty = schedQty)
    (hb1s : batch1.lastScheduledStage = some nextStage.stageId)
    (hb1h : batch1.held = false)
    (hb1c : batch1.schedulingCompleted = true ↔ (n : Int) = (stages.length : Int) - 1)
    (hsq : spawn.qty = heldQty)
    (hss : spawn.lastScheduledStage = batch.lastScheduledStage)
    (hsc : spawn.schedulingCompleted = false)
    (hzs : withSpawn = false → heldQty = 0)
    (hpack : InvPack stages jobId q st) :
    InvPack stages jobId q
      { batches :=
          if withSpawn then st.batches.set i batch1 ++ [spawn] else st.batches.set i batch1
        rows := scheduleQuantityForWeek st.rows jobId nextStage.stageId week schedQty } := by
  obtain ⟨hinv, hku, hhnc⟩ := hpack
  refine ⟨?_, amopk_sqw _ _ _ _ _ hku, ?_⟩
  · intro k sd hk
    have hklen : k < stages.length := (List.get?_eq_some.mp hk).1
    have hnlen : n < stages.length := (List.get?_eq_some.mp hn).1
    have hInvk := hinv k sd hk
    have hsum := sumForStage_sqw st.rows jobId nextStage.stageId week schedQty jobId
      sd.stageId (hku _ _)
    have hdelta : (jobId = jobId ∧ sd.stageId = nextStage.stageId) ↔ k = n := by
      constructor
      · rintro ⟨-, hsd⟩
        exact nodup_stageId_inj stages HN k n sd nextStage hk hn hsd
      · intro hkn
        subst hkn
        rw [hk] at hn
        cases hn
        exact ⟨rfl, rfl⟩
    have hp1 : posOf stages batch1 = (n : Int) := by
      simp only [posOf, hb1s]
      exact jsFindIdx_of_get (fun sd => sd.stageId) stages n nextStage HN hn
    have hpend : pendingSum stages k
        (if withSpawn then st.batches.set i batch1 ++ [spawn] else st.batches.set i batch1)
        = pendingSum stages k st.batches - pendingAt stages k batch
          + pendingAt stages k batch1 + pendingAt stages k spawn := by
      cases withSpawn with
      | true =>
        rw [if_pos rfl, pendingSum_append, pendingSum_set stages k st.batches i batch batch1 hb,
          pendingSum_cons, pendingSum_nil]
        ring
      | false =>
        rw [if_neg (by simp), pendingSum_set stages k st.batches i batch batch1 hb]
        have hz : pendingAt stages k spawn = 0 := by
          unfold pendingAt
          rw [hsc, hsq, hzs rfl]
          simp
        rw [hz]
        ring
    show sumForStage _ jobId sd.stageId + _ = q
    rw [hsum, hpend]
    have hpab : pendingAt stages k batch = if ((n : Int) - 1 < (k : Int)) then batch.qty else 0 := by
      unfold pendingAt
      rw [hcomp, hpos]
      simp
    have hpaspawn : pendingAt stages k spawn =
        if ((n : Int) - 1 < (k : Int)) then heldQty else 0 := by
      unfold pendingAt
      rw [hsc, posOf_congr stages spawn batch hss, hpos, hsq]
      simp
    have hpab1 : pendingAt stages k batch1 =
        if batch1.schedulingCompleted then (0 : Int)
        else if ((n : Int) < (k : Int)) then schedQty else 0 := by
      unfold pendingAt
      rw [hp1, hb1q]
    rw [hpab, hpaspawn, hpab1, if_congr hdelta rfl rfl]
    by_cases hc1 : batch1.schedulingCompleted = true
    · rw [if_pos hc1]
      have hn_last := hb1c.mp hc1
      split_ifs <;> omega
    · rw [if_neg hc1]
      have hn_not : ¬ ((n : Int) = (stages.length : Int) - 1) := fun hc => hc1 (hb1c.mpr hc)
      split_ifs <;> omega
  · intro b hbmem hheld2
    have hmem2 : b ∈ st.batches.set i batch1 ∨ b = spawn := by
      cases withSpawn with
      | true =>
        rw [if_pos rfl] at hbmem
        rcases List.mem_append.mp hbmem with h | h
        · exact Or.inl h
        · exact Or.inr (by simpa using h)
      | false =>
        rw [if_neg (by simp)] at hbmem
        exact Or.inl hbmem
    rcases hmem2 with h | rfl
    · rcases List.mem_or_eq_of_mem_set h with h2 | rfl
      · exact hhnc b h2 hheld2
      · exact absurd hheld2 (by rw [hb1h]; simp)
    · exact hsc

end Scheduler

namespace Scheduler

lemma jsGet_some {α : Type} (l : List α) (idx : Int) (x : α) (h : jsGet l idx = some x) :
    0 ≤ idx ∧ l.get? idx.toNat = some x := by
  unfold jsGet at h
  by_cases hneg : idx < 0
  · rw [if_pos hneg] at h
    exact absurd h (by simp)
  · rw [if_neg hneg] at h
    exact ⟨by omega, h⟩

lemma advanceBatch_preserves (stages : List StageData) (jobId arrive q : Int)
    (st st' : PlanState) (i : Nat) (info : Option (Int × Int × Int))
    (HN : (stages.map (fun sd => sd.stageId)).Nodup)
    (hpack : InvPack stages jobId q st)
    (hrun : advanceBatch stages jobId arrive st i = .ok (st', info)) :
    InvPack stages jobId q st' := by
  unfold advanceBatch at hrun
  cases hb : st.batches.get? i with
  | none =>
    simp only [hb] at hrun
    exact absurd hrun (by simp)
  | some batch =>
    simp only [hb] at hrun
    by_cases hskip : (batch.held || batch.schedulingCompleted) = true
    · rw [if_pos hskip] at hrun
      cases hrun
      exact hpack
    · rw [if_neg hskip] at hrun
      simp only [Bool.or_eq_true, not_or, Bool.not_eq_true] at hskip
      obtain ⟨hheld, hcomp⟩ := hskip
      cases hls : batch.lastScheduledStage with
      | none =>
        simp only [hls] at hrun
        cases hjs : jsGet stages 0 with
        | none =>
          simp only [hjs] at hrun
          exact absurd hrun (by simp)
        | some nextStage =>
          simp only [hjs] at hrun
          cases hrun
          refine step_inv_core _ _ _ _ _ _ _ _ _ 0 _
            (match nextStage.proceedWithTestQty with
             | none => 0
             | some p => max (batch.qty - p) 0) _ _
            HN hb hcomp ?hpos ?hn ?hq ?hb1q ?hb1s ?hb1h ?hb1c ?hsq ?hss ?hsc ?hzs hpack
          case hpos => simp [posOf, hls]
          case hn => exact (jsGet_some stages 0 nextStage hjs).2
          case hq =>
            cases hcap : nextStage.proceedWithTestQty with
            | none =>
              show batch.qty + 0 = batch.qty
              ring
            | some p =>
              show min p batch.qty + max (batch.qty - p) 0 = batch.qty
              omega
          case hb1q => rfl
          case hb1s => rfl
          case hb1h => exact hheld
          case hb1c =>
            show (if (0 : Int) = (stages.length : Int) - 1 then true
                  else batch.schedulingCompleted) = true
              ↔ ((0 : Nat) : Int) = (stages.length : Int) - 1
            split_ifs with hcond <;> simp [hcond, hcomp]
          case hsq => rfl
          case hss => exact hls.symm
          case hsc => rfl
          case hzs =>
            intro h
            simpa [bne_eq_false_iff_eq] using h
      | some s =>
        simp only [hls] at hrun
        cases hjs1 : jsGet stages (jsFindIdx stages (fun sd => sd.stageId == s)) with
        | none =>
          simp only [hjs1] at hrun
          exact absurd hrun (by simp)
        | some sd =>
          simp only [hjs1] at hrun
          cases hjs2 : jsGet stages (jsFindIdx stages (fun sd => sd.stageId == s) + 1) with
          | none =>
            simp only [hjs2] at hrun
            exact absurd hrun (by simp)
          | some nextStage =>
            simp only [hjs2] at hrun
            cases hrun
            have hge0 : 0 ≤ jsFindIdx stages (fun sd => sd.stageId == s) :=
              (jsGet_some _ _ _ hjs1).1
            have hcast : ((jsFindIdx stages (fun sd => sd.stageId == s) + 1).toNat : Int)
                = jsFindIdx stages (fun sd => sd.stageId == s) + 1 := by omega
            refine step_inv_core _ _ _ _ _ _ _ _ _
              ((jsFindIdx stages (fun sd => sd.stageId == s) + 1).toNat) _
              (match nextStage.proceedWithTestQty with
               | none => 0
               | some p => max (batch.qty - p) 0) _ _
              HN hb hcomp ?hpos ?hn ?hq ?hb1q ?hb1s ?hb1h ?hb1c ?hsq ?hss ?hsc ?hzs hpack
            case hpos =>
              rw [hcast]
              simp [posOf, hls]
            case hn => exact (jsGet_some _ _ _ hjs2).2
            case hq =>
              cases hcap : nextStage.proceedWithTestQty with
              | none =>
                show batch.qty + 0 = batch.qty
                ring
              | some p =>
                show min p batch.qty + max (batch.qty - p) 0 = batch.qty
                omega
            case hb1q => rfl
            case hb1s => rfl
            case hb1h => exact hheld
            case hb1c =>
              show (if jsFindIdx stages (fun sd => sd.stageId == s) + 1
                      = (stages.length : Int) - 1 then true
                    else batch.schedulingCompleted) = true
                ↔ ((jsFindIdx stages (fun sd => sd.stageId == s) + 1).toNat : Int)
                    = (stages.length : Int) - 1
              rw [hcast]
              split_ifs with hcond <;> simp [hcond, hcomp]
            case hsq => rfl
            case hss => exact hls.symm
            case hsc => rfl
            case hzs =>
              intro h
              simpa [bne_eq_false_iff_eq] using h

end Scheduler

namespace Scheduler

lemma releaseTargetIdx_eq_posOf (stages : List StageData) (b : Batch) :
    releaseTargetIdx stages b = posOf stages b + 1 := by
  cases h : b.lastScheduledStage <;> simp [posOf, releaseTargetIdx, h]

lemma releaseScan_preserves (stages : List StageData) (jobId q trigger : Int)
    (relDate : Option Int) (weekStart : Int)
    (HN : (stages.map (fun sd => sd.stageId)).Nodup) :
    ∀ (fuel j : Nat) (st st' : PlanState),
      releaseScan stages jobId trigger relDate weekStart fuel j st = .ok st' →
      InvPack stages jobId q st → InvPack stages jobId q st' := by
  intro fuel
  induction fuel with
  | zero =>
    intro j st st' hrun hpack
    rw [releaseScan] at hrun
    by_cases hj : j < st.batches.length
    · rw [if_pos hj] at hrun
      exact absurd hrun (by simp)
    · rw [if_neg hj] at hrun
      cases hrun
      exact hpack
  | succ fuel ih =>
    intro j st st' hrun hpack
    rw [releaseScan] at hrun
    cases hget : st.batches.get? j with
    | none =>
      simp only [hget] at hrun
      cases hrun
      exact hpack
    | some heldBatch =>
      simp only [hget] at hrun
      cases hrel : releasedBy heldBatch trigger with
      | false =>
        rw [hrel, if_neg (by simp)] at hrun
        exact ih _ _ _ hrun hpack
      | true =>
        rw [hrel, if_pos rfl] at hrun
        cases hjs : jsGet stages (releaseTargetIdx stages heldBatch) with
        | none =>
          simp only [hjs] at hrun
          exact absurd hrun (by simp)
        | some rst =>
          simp only [hjs] at hrun
          have hheld2 : heldBatch.held = true := by
            have h := hrel
            simp only [releasedBy, Bool.and_eq_true] at h
            exact h.1
          have hcomp : heldBatch.schedulingCompleted = false :=
            hpack.2.2 heldBatch (List.get?_mem hget) hheld2
          have hge0 : 0 ≤ releaseTargetIdx stages heldBatch := (jsGet_some _ _ _ hjs).1
          have hcastrel : ((releaseTargetIdx stages heldBatch).toNat : Int)
              = releaseTargetIdx stages heldBatch := by omega
          have hmid : InvPack stages jobId q
              { batches := st.batches.set j
                  { heldBatch with
                    held := false
                    releaseQtyHeldAtStage := none
                    lastScheduledDate := relDate
                    lastScheduledStage := some rst.stageId
                    schedulingCompleted :=
                      if releaseTargetIdx stages heldBatch = (stages.length : Int) - 1 then true
                      else heldBatch.schedulingCompleted }
                rows := scheduleQuantityForWeek st.rows jobId rst.stageId weekStart
                  heldBatch.qty } := by
            have hcore := step_inv_core stages jobId q st j heldBatch
              { heldBatch with
                held := false
                releaseQtyHeldAtStage := none
                lastScheduledDate := relDate
                lastScheduledStage := some rst.stageId
                schedulingCompleted :=
                  if releaseTargetIdx stages heldBatch = (stages.length : Int) - 1 then true
                  else heldBatch.schedulingCompleted }
              { qty := 0, lastScheduledStage := heldBatch.lastScheduledStage, held := true,
                schedulingCompleted := false, lastScheduledDate := none,
                releaseQtyHeldAtStage := none }
              rst ((releaseTargetIdx stages heldBatch).toNat) heldBatch.qty 0 weekStart false
              HN hget hcomp
              (by rw [hcastrel, releaseTargetIdx_eq_posOf]; ring)
              ((jsGet_some _ _ _ hjs).2)
              (by ring) rfl rfl rfl
              (by rw [hcastrel]
                  split_ifs with hcond <;> simp [hcond, hcomp])
              rfl rfl rfl (fun _ => rfl) hpack
            simpa using hcore
          exact ih _ _ _ hrun hmid

lemma processStep_preserves (stages : List StageData) (jobId arrive q : Int)
    (st st' : PlanState) (i : Nat)
    (HN : (stages.map (fun sd => sd.stageId)).Nodup)
    (hpack : InvPack stages jobId q st)
    (hrun : processStep stages jobId arrive st i = .ok st') :
    InvPack stages jobId q st' := by
  unfold processStep at hrun
  cases hadv : advanceBatch stages jobId arrive st i with
  | error ep =>
    rw [hadv] at hrun
    exact absurd hrun (by simp)
  | ok pr =>
    rw [hadv] at hrun
    obtain ⟨st1, info⟩ := pr
    have hpack1 := advanceBatch_preserves stages jobId arrive q st st1 i info HN hpack hadv
    cases info with
    | none =>
      cases hrun
      exact hpack1
    | some tri =>
      obtain ⟨trigger, forDate, weekStart⟩ := tri
      exact releaseScan_preserves stages jobId q trigger (some forDate) weekStart HN
        _ _ _ _ hrun hpack1

lemma passLoop_preserves (stages : List StageData) (jobId arrive q : Int)
    (HN : (stages.map (fun sd => sd.stageId)).Nodup) :
    ∀ (fuel i : Nat) (st st' : PlanState),
      passLoop stages jobId arrive fuel i st = .ok st' →
      InvPack stages jobId q st → InvPack stages jobId q st' := by
  intro fuel
  induction fuel with
  | zero =>
    intro i st st' hrun hpack
    rw [passLoop] at hrun
    by_cases hi : i < st.batches.length
    · rw [if_pos hi] at hrun
      exact absurd hrun (by simp)
    · rw [if_neg hi] at hrun
      cases hrun
      exact hpack
  | succ fuel ih =>
    intro i st st' hrun hpack
    rw [passLoop] at hrun
    by_cases hi : i < st.batches.length
    · rw [if_pos hi] at hrun
      cases hps : processStep stages jobId arrive st i with
      | error ep =>
        rw [hps] at hrun
        exact absurd hrun (by simp)
      | ok st1 =>
        rw [hps] at hrun
        exact ih _ _ _ hrun (processStep_preserves stages jobId arrive q st st1 i HN hpack hps)
    · rw [if_neg hi] at hrun
      cases hrun
      exact hpack

lemma sortBatches_preserves (stages : List StageData) (jobId q : Int) (st : PlanState)
    (hpack : InvPack stages jobId q st) :
    InvPack stages jobId q { st with batches := sortBatches st.batches } := by
  obtain ⟨hinv, hku, hhnc⟩ := hpack
  refine ⟨?_, hku, ?_⟩
  · intro k sd hk
    have := hinv k sd hk
    simpa [pendingSum_sort] using this
  · intro b hb hheld
    have hb2 : b ∈ st.batches := by
      unfold sortBatches at hb
      rcases List.mem_append.mp hb with h | h
      · exact (List.mem_filter.mp h).1
      · exact (List.mem_filter.mp h).1
    exact hhnc b hb2 hheld

lemma autoPlanLoop_ok (stages : List StageData) (jobId arrive q : Int)
    (HN : (stages.map (fun sd => sd.stageId)).Nodup) :
    ∀ (fuel iterations : Nat) (st st' : PlanState),
      autoPlanLoop stages jobId arrive fuel iterations st = .ok st' →
      InvPack stages jobId q st →
      InvPack stages jobId q st' ∧
        (st'.batches.any (fun b => !b.schedulingCompleted)) = false := by
  intro fuel
  induction fuel with
  | zero =>
    intro iterations st st' hrun hpack
    rw [autoPlanLoop] at hrun
    exact absurd hrun (by simp)
  | succ fuel ih =>
    intro iterations st st' hrun hpack
    rw [autoPlanLoop] at hrun
    by_cases hc : (st.batches.any fun b => !b.schedulingCompleted) = true ∧ iterations < 100
    · rw [if_pos hc] at hrun
      cases hpl : passLoop stages jobId arrive ((stages.length + 2) ^ (stages.length + 2)) 0
          { st with batches := sortBatches st.batches } with
      | error ep =>
        rw [hpl] at hrun
        exact absurd hrun (by simp)
      | ok st1 =>
        rw [hpl] at hrun
        dsimp only at hrun
        by_cases hdl : (!false) = true ∧ 10 < iterations + 1
        · rw [if_pos hdl] at hrun
          exact absurd hrun (by simp)
        · rw [if_neg hdl] at hrun
          exact ih _ _ _ hrun
            (passLoop_preserves stages jobId arrive q HN _ _ _ _ hpl
              (sortBatches_preserves stages jobId q st hpack))
    · rw [if_neg hc] at hrun
      by_cases hmax : 100 ≤ iterations
      · rw [if_pos hmax] at hrun
        exact absurd hrun (by simp)
      · rw [if_neg hmax] at hrun
        cases hrun
        refine ⟨hpack, ?_⟩
        rcases Decidable.not_and_iff_or_not.mp hc with h | h
        · exact Bool.not_eq_true _ ▸ (by simpa using h)
        · omega

end Scheduler

namespace Scheduler

lemma sumForStage_filter_out (rows : List SchedRow) (jobId s : Int) :
    sumForStage (rows.filter (fun r => !(r.jobId == jobId))) jobId s = 0 := by
  induction rows with
  | nil => rfl
  | cons r rs ih =>
    rw [List.filter_cons]
    by_cases hj : r.jobId = jobId
    · rw [if_neg (by simp [hj])]
      exact ih
    · rw [if_pos (by simp [hj])]
      simp only [sumForStage, List.filter_cons] at ih ⊢
      rw [if_neg (by simp [hj])]
      exact ih

lemma amopk_filter_out (rows : List SchedRow) (jobId : Int) :
    AtMostOnePerKey (rows.filter (fun r => !(r.jobId == jobId))) jobId := by
  intro s w
  have : (rows.filter (fun r => !(r.jobId == jobId))).filter (rowMatches jobId s w) = [] := by
    rw [List.filter_eq_nil]
    intro r hr
    have hj : ¬ (r.jobId = jobId) := by
      have := (List.mem_filter.mp hr).2
      simpa using this
    simp [rowMatches, hj]
  rw [this]
  simp

lemma pendingSum_completed (stages : List StageData) (k : Nat) (bs : List Batch)
    (hall : (bs.any fun b => !b.schedulingCompleted) = false) :
    pendingSum stages k bs = 0 := by
  induction bs with
  | nil => rfl
  | cons b rest ih =>
    simp only [List.any_cons, Bool.or_eq_false_iff, Bool.not_eq_true'] at hall
    have hc : b.schedulingCompleted = true := by simpa using hall.1
    simp only [pendingSum, List.map_cons, List.sum_cons]
    rw [pendingAt, if_pos hc]
    have := ih (by simp only [List.any_eq_false] at hall ⊢; intro x hx; exact hall.2 x hx)
    simp only [pendingSum] at this
    omega

/-- **C2** (conservation).  Whenever `autoPlanJob` runs to completion without
error (and the pipeline's stage ids are distinct, as a well-formed database
guarantees), every stage applicable to the job's activity type ends up with a
summed scheduled quantity — across all weeks — equal to the job's
`totalSamples`.  In particular this holds for pipelines with no
`proceedWithTestQty` anywhere. -/
theorem claim2_conservation (db : Database) (jobId : Int) (job : Job)
    (actType : ActivityType) (out : List SchedRow)
    (hjob : getJob db jobId = some job)
    (hact : db.activityTypes.find? (fun a => a.name == job.activityType) = some actType)
    (HN : ((jobStagesFor db actType.id).map (fun sd => sd.stageId)).Nodup)
    (hrun : autoPlanJob db jobId = (.ok (), out)) :
    ∀ k sd, (jobStagesFor db actType.id).get? k = some sd →
      sumForStage out jobId sd.stageId = job.totalSamples := by
  intro k sd hk
  unfold autoPlanJob at hrun
  simp only [hjob] at hrun
  simp only [hact] at hrun
  by_cases hlen : (jobStagesFor db actType.id).length = 0
  · rw [List.get?_eq_none.mpr (by omega)] at hk
    exact absurd hk (by simp)
  · rw [if_neg hlen] at hrun
    set stages := jobStagesFor db actType.id with hstages
    set rows0 := db.schedules.filter (fun r => !(r.jobId == jobId)) with hrows0
    set b0 : Batch :=
      { qty := job.totalSamples, lastScheduledStage := none, held := false,
        schedulingCompleted := false, lastScheduledDate := none,
        releaseQtyHeldAtStage := none } with hb0
    have hpack0 : InvPack stages jobId job.totalSamples { batches := [b0], rows := rows0 } := by
      refine ⟨?_, amopk_filter_out db.schedules jobId, ?_⟩
      · intro k' sd' hk'
        have h1 : sumForStage rows0 jobId sd'.stageId = 0 :=
          sumForStage_filter_out db.schedules jobId sd'.stageId
        have h2 : pendingSum stages k' [b0] = job.totalSamples := by
          simp only [pendingSum, List.map_cons, List.map_nil, List.sum_cons, List.sum_nil]
          rw [pendingAt]
          rw [if_neg (by simp [hb0])]
          rw [if_pos (by simp [posOf, hb0]; omega)]
          simp [hb0]
        simp only [h1, h2]
        omega
      · intro b hb hheld
        simp only [List.mem_singleton] at hb
        subst hb
        exact absurd hheld (by simp [hb0])
    cases hloop : autoPlanLoop stages jobId job.materialArrivesDate 101 0
        { batches := [b0], rows := rows0 } with
    | error ep =>
      simp only [hloop] at hrun
      exact absurd hrun (by simp)
    | ok stF =>
      simp only [hloop, Prod.mk.injEq] at hrun
      have hout : out = stF.rows := hrun.2.symm
      obtain ⟨hpackF, hdone⟩ :=
        autoPlanLoop_ok stages jobId job.materialArrivesDate job.totalSamples HN
          101 0 _ _ hloop hpack0
      have := hpackF.1 k sd hk
      rw [pendingSum_completed stages k stF.batches hdone] at this
      rw [hout]
      omega

/-- Concrete check of C2: on the spec's worked example every one of the five
stages ends with total 15. -/
theorem claim2_witness :
    (getJob exampleDb 1 = some
        { id := 1, totalSamples := 15, materialArrivesDate := 1, activityType := "A" }) ∧
    (exampleDb.activityTypes.find?
        (fun a => a.name == "A") = some { id := 10, name := "A" }) ∧
    (((jobStagesFor exampleDb 10).map (fun sd => sd.stageId)).Nodup) ∧
    (autoPlanJob exampleDb 1 = (.ok (), (autoPlanJob exampleDb 1).2)) ∧
    ((jobStagesFor exampleDb 10).get? 0 = some
        { stageId := 1, processingTimeDays := 5, order := 1, proceedWithTestQty := none,
          releaseRemainingAtStageId := none }) ∧
    sumForStage (autoPlanJob exampleDb 1).2 1 1 = 15 := by
  refine ⟨by decide, by decide, by decide, by decide, by decide, ?_⟩
  exact claim2_conservation exampleDb 1
    { id := 1, totalSamples := 15, materialArrivesDate := 1, activityType := "A" }
    { id := 10, name := "A" } (autoPlanJob exampleDb 1).2
    (by decide) (by decide) (by decide) (by decide) 0
    { stageId := 1, processingTimeDays := 5, order := 1, proceedWithTestQty := none,
      releaseRemainingAtStageId := none } (by decide)

end Scheduler

namespace Scheduler

lemma filter_keep_map_upd (rows : List SchedRow) (J s w q : Int) :
    (rows.map (fun r => if rowMatches J s w r then
        { r with scheduledSamples := r.scheduledSamples + q } else r)).filter
      (fun r => !(r.jobId == J)) = rows.filter (fun r => !(r.jobId == J)) := by
  induction rows with
  | nil => rfl
  | cons a l ih =>
    simp only [List.map_cons, List.filter_cons]
    by_cases hj : a.jobId = J
    · rw [if_neg (by split_ifs <;> simp [hj]), if_neg (by simp [hj])]
      exact ih
    · have hm : rowMatches J s w a = false := by simp [rowMatches, hj]
      have hfa : (if rowMatches J s w a = true then
          { a with scheduledSamples := a.scheduledSamples + q } else a) = a :=
        if_neg (by simp [hm])
      rw [hfa, if_pos (by simp [hj]), if_pos (by simp [hj]), ih]

lemma sqw_keep (rows : List SchedRow) (J s w q : Int) :
    (scheduleQuantityForWeek rows J s w q).filter (fun r => !(r.jobId == J)) =
      rows.filter (fun r => !(r.jobId == J)) := by
  unfold scheduleQuantityForWeek
  split_ifs with hany
  · exact filter_keep_map_upd rows J s w q
  · rw [List.filter_append]
    have h1 : ([{ jobId := J, stageId := s, weekStart := w, scheduledSamples := q }] :
        List SchedRow).filter (fun r => !(r.jobId == J)) = [] := by simp
    rw [h1, List.append_nil]

lemma releaseScan_keep (stages : List StageData) (J trigger : Int) (relDate : Option Int)
    (weekStart : Int) :
    ∀ (fuel j : Nat) (st : PlanState),
      (rowsOf (releaseScan stages J trigger relDate weekStart fuel j st)).filter
          (fun r => !(r.jobId == J)) =
        st.rows.filter (fun r => !(r.jobId == J)) := by
  intro fuel
  induction fuel with
  | zero =>
    intro j st
    rw [releaseScan]
    split_ifs <;> rfl
  | succ fuel ih =>
    intro j st
    rw [releaseScan]
    cases hget : st.batches.get? j with
    | none =>
      simp only [hget]
      rfl
    | some heldBatch =>
      simp only [hget]
      cases hrel : releasedBy heldBatch trigger with
      | false =>
        rw [if_neg (by simp)]
        exact ih _ _
      | true =>
        rw [if_pos rfl]
        cases hjs : jsGet stages (releaseTargetIdx stages heldBatch) with
        | none => rfl
        | some rst =>
          dsimp only
          rw [ih]
          exact sqw_keep _ _ _ _ _

lemma advanceBatch_keep (stages : List StageData) (J arrive : Int) (st : PlanState) (i : Nat)
    (res : Except (PlanError × PlanState) (PlanState × Option (Int × Int × Int)))
    (hres : advanceBatch stages J arrive st i = res) :
    (match res with
     | .ok (st1, _) => st1.rows
     | .error (_, stE) => stE.rows).filter (fun r => !(r.jobId == J)) =
      st.rows.filter (fun r => !(r.jobId == J)) := by
  unfold advanceBatch at hres
  cases hget : st.batches.get? i with
  | none =>
    simp only [hget] at hres
    cases hres
    rfl
  | some batch =>
    simp only [hget] at hres
    by_cases hskip : (batch.held || batch.schedulingCompleted) = true
    · rw [if_pos hskip] at hres
      cases hres
      rfl
    · rw [if_neg hskip] at hres
      cases hls : batch.lastScheduledStage with
      | none =>
        simp only [hls] at hres
        cases hjs : jsGet stages 0 with
        | none =>
          simp only [hjs] at hres
          cases hres
          rfl
        | some nextStage =>
          simp only [hjs] at hres
          cases hres
          exact sqw_keep _ _ _ _ _
      | some s =>
        simp only [hls] at hres
        cases hjs1 : jsGet stages (jsFindIdx stages (fun sd => sd.stageId == s)) with
        | none =>
          simp only [hjs1] at hres
          cases hres
          rfl
        | some prevSd =>
          simp only [hjs1] at hres
          cases hjs2 : jsGet stages (jsFindIdx stages (fun sd => sd.stageId == s) + 1) with
          | none =>
            simp only [hjs2] at hres
            cases hres
            rfl
          | some nextStage =>
            simp only [hjs2] at hres
            cases hres
            exact sqw_keep _ _ _ _ _

lemma processStep_keep (stages : List StageData) (J arrive : Int) (st : PlanState) (i : Nat)
    (res : Except (PlanError × PlanState) PlanState)
    (hres : processStep stages J arrive st i = res) :
    (rowsOf res).filter (fun r => !(r.jobId == J)) =
      st.rows.filter (fun r => !(r.jobId == J)) := by
  unfold processStep at hres
  cases hadv : advanceBatch stages J arrive st i with
  | error e =>
    rw [hadv] at hres
    cases hres
    obtain ⟨e1, stE⟩ := e
    exact advanceBatch_keep stages J arrive st i (.error (e1, stE)) hadv
  | ok pr =>
    obtain ⟨st1, info⟩ := pr
    rw [hadv] at hres
    cases info with
    | none =>
      cases hres
      exact advanceBatch_keep stages J arrive st i (.ok (st1, none)) hadv
    | some tri =>
      obtain ⟨trigger, forDate, weekStart⟩ := tri
      cases hres
      exact (releaseScan_keep stages J trigger (some forDate) weekStart
          st1.batches.length 0 st1).trans
        (advanceBatch_keep stages J arrive st i
          (.ok (st1, some (trigger, forDate, weekStart))) hadv)

lemma passLoop_keep (stages : List StageData) (J arrive : Int) :
    ∀ (fuel i : Nat) (st : PlanState) (res : Except (PlanError × PlanState) PlanState),
      passLoop stages J arrive fuel i st = res →
      (rowsOf res).filter (fun r => !(r.jobId == J)) =
        st.rows.filter (fun r => !(r.jobId == J)) := by
  intro fuel
  induction fuel with
  | zero =>
    intro i st res hres
    rw [passLoop] at hres
    split_ifs at hres <;> (cases hres; rfl)
  | succ fuel ih =>
    intro i st res hres
    rw [passLoop] at hres
    by_cases hi : i < st.batches.length
    · rw [if_pos hi] at hres
      cases hps : processStep stages J arrive st i with
      | error e =>
        rw [hps] at hres
        cases hres
        exact processStep_keep stages J arrive st i (.error e) hps
      | ok st' =>
        rw [hps] at hres
        exact (ih _ _ _ hres).trans (processStep_keep stages J arrive st i (.ok st') hps)
    · rw [if_neg hi] at hres
      cases hres
      rfl

lemma autoPlanLoop_keep (stages : List StageData) (J arrive : Int) :
    ∀ (fuel iterations : Nat) (st : PlanState) (res : Except (PlanError × PlanState) PlanState),
      autoPlanLoop stages J arrive fuel iterations st = res →
      (rowsOf res).filter (fun r => !(r.jobId == J)) =
        st.rows.filter (fun r => !(r.jobId == J)) := by
  intro fuel
  induction fuel with
  | zero =>
    intro iterations st res hres
    rw [autoPlanLoop] at hres
    cases hres
    rfl
  | succ fuel ih =>
    intro iterations st res hres
    rw [autoPlanLoop] at hres
    by_cases hc : (st.batches.any fun b => !b.schedulingCompleted) = true ∧ iterations < 100
    · rw [if_pos hc] at hres
      cases hpl : passLoop stages J arrive ((stages.length + 2) ^ (stages.length + 2)) 0
          { st with batches := sortBatches st.batches } with
      | error e =>
        rw [hpl] at hres
        cases hres
        exact passLoop_keep stages J arrive _ _
          { st with batches := sortBatches st.batches } (.error e) hpl
      | ok st' =>
        rw [hpl] at hres
        dsimp only at hres
        by_cases hdl : (!false) = true ∧ 10 < iterations + 1
        · rw [if_pos hdl] at hres
          cases hres
          exact passLoop_keep stages J arrive _ _
            { st with batches := sortBatches st.batches } (.ok st') hpl
        · rw [if_neg hdl] at hres
          exact (ih _ _ _ hres).trans
            (passLoop_keep stages J arrive _ _
              { st with batches := sortBatches st.batches } (.ok st') hpl)
    · rw [if_neg hc] at hres
      by_cases hmax : 100 ≤ iterations
      · rw [if_pos hmax] at hres
        cases hres
        rfl
      · rw [if_neg hmax] at hres
        cases hres
        rfl

end Scheduler

namespace Scheduler

lemma filter_keep_idem (rows : List SchedRow) (J : Int) :
    (rows.filter (fun r => !(r.jobId == J))).filter (fun r => !(r.jobId == J)) =
      rows.filter (fun r => !(r.jobId == J)) := by
  rw [List.filter_filter]
  simp

/-- **C6** (idempotence).  Running `autoPlanJob` again on the schedules table
the first run persisted returns exactly the first run's outcome and rows:
the run first drops every row of the job, so the result is a pure function of
the rows of other jobs and the job's own configuration. -/
theorem claim6_idempotent (db : Database) (jobId : Int) :
    autoPlanJob { db with schedules := (autoPlanJob db jobId).2 } jobId =
      autoPlanJob db jobId := by
  obtain ⟨sched', hs⟩ : ∃ s, (autoPlanJob db jobId).2 = s := ⟨_, rfl⟩
  rw [hs]
  cases hj : getJob db jobId with
  | none =>
    have h1 : autoPlanJob db jobId = (.error .jobNotFound, db.schedules) := by
      unfold autoPlanJob
      rw [hj]
    have hs2 : sched' = db.schedules := by rw [← hs, h1]
    rw [hs2, h1]
  | some job =>
    cases ha : db.activityTypes.find? (fun a => a.name == job.activityType) with
    | none =>
      have h1 : autoPlanJob db jobId = (.error .activityTypeNotFound, db.schedules) := by
        unfold autoPlanJob
        simp only [hj]
        simp only [ha]
      have hs2 : sched' = db.schedules := by rw [← hs, h1]
      rw [hs2, h1]
    | some actType =>
      by_cases hlen : (jobStagesFor db actType.id).length = 0
      · have h1 : autoPlanJob db jobId = (.error .noStages, db.schedules) := by
          unfold autoPlanJob
          simp only [hj]
          simp only [ha]
          rw [if_pos hlen]
        have hs2 : sched' = db.schedules := by rw [← hs, h1]
        rw [hs2, h1]
      · have h1 : autoPlanJob db jobId =
            (match autoPlanLoop (jobStagesFor db actType.id) jobId job.materialArrivesDate
                101 0
                { batches := [{ qty := job.totalSamples, lastScheduledStage := none,
                                held := false, schedulingCompleted := false,
                                lastScheduledDate := none, releaseQtyHeldAtStage := none }],
                  rows := db.schedules.filter (fun r => !(r.jobId == jobId)) } with
             | .ok stF => (.ok (), stF.rows)
             | .error (e, stE) => (.error e, stE.rows)) := by
          unfold autoPlanJob
          simp only [hj]
          simp only [ha]
          rw [if_neg hlen]
        have h2 : autoPlanJob { db with schedules := sched' } jobId =
            (match autoPlanLoop (jobStagesFor db actType.id) jobId job.materialArrivesDate
                101 0
                { batches := [{ qty := job.totalSamples, lastScheduledStage := none,
                                held := false, schedulingCompleted := false,
                                lastScheduledDate := none, releaseQtyHeldAtStage := none }],
                  rows := sched'.filter (fun r => !(r.jobId == jobId)) } with
             | .ok stF => (.ok (), stF.rows)
             | .error (e, stE) => (.error e, stE.rows)) := by
          unfold autoPlanJob
          have hj' : getJob { db with schedules := sched' } jobId = some job := hj
          simp only [hj']
          have ha' : ({ db with schedules := sched' } : Database).activityTypes.find?
              (fun a => a.name == job.activityType) = some actType := ha
          simp only [ha']
          rw [if_neg (show ¬ (jobStagesFor { db with schedules := sched' }
            actType.id).length = 0 from hlen)]
          rfl
        have hkeep : sched'.filter (fun r => !(r.jobId == jobId)) =
            db.schedules.filter (fun r => !(r.jobId == jobId)) := by
          rw [← hs, h1]
          cases hloop : autoPlanLoop (jobStagesFor db actType.id) jobId
              job.materialArrivesDate 101 0
              { batches := [{ qty := job.totalSamples, lastScheduledStage := none,
                              held := false, schedulingCompleted := false,
                              lastScheduledDate := none, releaseQtyHeldAtStage := none }],
                rows := db.schedules.filter (fun r => !(r.jobId == jobId)) } with
          | ok stF =>
            simp only [hloop]
            have hk := autoPlanLoop_keep (jobStagesFor db actType.id) jobId
              job.materialArrivesDate 101 0 _ (.ok stF) hloop
            simp only [rowsOf] at hk
            show stF.rows.filter (fun r => !(r.jobId == jobId)) = _
            rw [hk]
            exact filter_keep_idem db.schedules jobId
          | error ep =>
            obtain ⟨e, stE⟩ := ep
            simp only [hloop]
            have hk := autoPlanLoop_keep (jobStagesFor db actType.id) jobId
              job.materialArrivesDate 101 0 _ (.error (e, stE)) hloop
            simp only [rowsOf] at hk
            show stE.rows.filter (fun r => !(r.jobId == jobId)) = _
            rw [hk]
            exact filter_keep_idem db.schedules jobId
        rw [h1, h2, hkeep]

end Scheduler
